import Mathlib

/-!
Verification development for the financial-assessment transaction ledger.

The embedding follows the source layout:
  * `TransactionType`, `DisputeState`, `Transaction`, `DisputeActionType`,
    `DisputeAction` model `src/transaction.rs`;
  * `Account` and its four operations model `src/account.rs`
    (`BigDecimal` balances and amounts are modelled as `ℚ`; the
    `HashMap<u32, Transaction>` as an association list; the `panic!`
    branches of resolve/chargeback as `Option.none`);
  * `InputRow`, the two `TryFrom` conversions and `OutputRow` model
    `src/csv_rows.rs`;
  * `processRow` / `processRows` / `runMain` model the event loop and the
    final projection of `src/main.rs` (the `BTreeMap<u16, Account>` as an
    association list sorted by ascending key).
-/

namespace FinAssess

/-- `TransactionType` from `src/transaction.rs`: a deposit or a withdrawal. -/
inductive TransactionType where
  | Deposit
  | Withdrawal
deriving DecidableEq, Repr

/-- `DisputeState` from `src/transaction.rs`. -/
inductive DisputeState where
  | Undisputed
  | Disputed
  | ChargedBack
deriving DecidableEq, Repr

/-- `DisputeActionType` from `src/transaction.rs`. -/
inductive DisputeActionType where
  | Dispute
  | Resolve
  | Chargeback
deriving DecidableEq, Repr

/-- `Transaction` from `src/transaction.rs`; the amount (a `BigDecimal` in
`src/account.rs` / `src/csv_rows.rs`) is modelled as a rational. -/
structure Transaction where
  id : ℕ
  client_id : ℕ
  amount : ℚ
  transaction_type : TransactionType
  dispute_state : DisputeState
deriving DecidableEq, Repr

/-- `DisputeAction` from `src/transaction.rs`. -/
structure DisputeAction where
  action_type : DisputeActionType
  client_id : ℕ
  transaction_id : ℕ
deriving DecidableEq, Repr

/-- Lookup in the transaction history, modelling `HashMap::get` /
`HashMap::contains_key` on `Account::transactions` (first matching key). -/
def lookupTx : List (ℕ × Transaction) → ℕ → Option Transaction
  | [], _ => none
  | (k, t) :: rest, tid => if k = tid then some t else lookupTx rest tid

/-- `HashMap::contains_key` on the history. -/
def containsTx (ts : List (ℕ × Transaction)) (tid : ℕ) : Bool :=
  (lookupTx ts tid).isSome

/-- `HashMap::insert` on the history: replace the first entry with the given
key if present, otherwise append. -/
def insertTx : List (ℕ × Transaction) → ℕ → Transaction → List (ℕ × Transaction)
  | [], k, t => [(k, t)]
  | (k0, t0) :: rest, k, t =>
    if k0 = k then (k, t) :: rest else (k0, t0) :: insertTx rest k t

/-- Write-back of a `HashMap::get_mut` mutation: replace the first entry with
the given key, leaving the history unchanged if the key is absent. -/
def updateTx : List (ℕ × Transaction) → ℕ → Transaction → List (ℕ × Transaction)
  | [], _, _ => []
  | (k0, t0) :: rest, k, t =>
    if k0 = k then (k, t) :: rest else (k0, t0) :: updateTx rest k t

/-- `Account` from `src/account.rs`. -/
structure Account where
  id : ℕ
  available_balance : ℚ
  held_balance : ℚ
  transactions : List (ℕ × Transaction)
  is_frozen : Bool
deriving DecidableEq, Repr

/-- `Account::new` from `src/account.rs`. -/
def Account.new (id : ℕ) : Account :=
  { id := id
    available_balance := 0
    held_balance := 0
    transactions := []
    is_frozen := false }

/-- `Account::register_transaction` from `src/account.rs`. -/
def Account.register_transaction (a : Account) (t : Transaction) : Account :=
  if a.is_frozen then a
  else if containsTx a.transactions t.id then a
  else
    match t.transaction_type with
    | TransactionType.Deposit =>
        { a with
          available_balance := a.available_balance + t.amount
          transactions := insertTx a.transactions t.id t }
    | TransactionType.Withdrawal =>
        if t.amount ≤ a.available_balance then
          { a with
            available_balance := a.available_balance - t.amount
            transactions := insertTx a.transactions t.id t }
        else a

/-- `Account::dispute_transaction` from `src/account.rs`. -/
def Account.dispute_transaction (a : Account) (tid : ℕ) : Account :=
  match lookupTx a.transactions tid with
  | none => a
  | some t =>
    if t.dispute_state = DisputeState.Undisputed then
      match t.transaction_type with
      | TransactionType.Deposit =>
          if t.amount ≤ a.available_balance then
            { a with
              available_balance := a.available_balance - t.amount
              held_balance := a.held_balance + t.amount
              transactions :=
                updateTx a.transactions tid { t with dispute_state := DisputeState.Disputed } }
          else a
      | TransactionType.Withdrawal => a
    else a

/-- `Account::resolve_disputed_transaction` from `src/account.rs`; the
`panic!` branch (held balance would go negative) is modelled as `none`. -/
def Account.resolve_disputed_transaction (a : Account) (tid : ℕ) : Option Account :=
  match lookupTx a.transactions tid with
  | none => some a
  | some t =>
    if t.dispute_state = DisputeState.Disputed then
      match t.transaction_type with
      | TransactionType.Deposit =>
          if t.amount ≤ a.held_balance then
            some { a with
              held_balance := a.held_balance - t.amount
              available_balance := a.available_balance + t.amount
              transactions :=
                updateTx a.transactions tid { t with dispute_state := DisputeState.Undisputed } }
          else none
      | TransactionType.Withdrawal => some a
    else some a

/-- `Account::chargeback_disputed_transaction` from `src/account.rs`; the
`panic!` branch is modelled as `none`. -/
def Account.chargeback_disputed_transaction (a : Account) (tid : ℕ) : Option Account :=
  match lookupTx a.transactions tid with
  | none => some a
  | some t =>
    if t.dispute_state = DisputeState.Disputed then
      match t.transaction_type with
      | TransactionType.Deposit =>
          if t.amount ≤ a.held_balance then
            some { a with
              held_balance := a.held_balance - t.amount
              is_frozen := true
              transactions :=
                updateTx a.transactions tid { t with dispute_state := DisputeState.ChargedBack } }
          else none
      | TransactionType.Withdrawal => some a
    else some a

/-- One event reaching an account, in the shape the driver delivers it
(`src/main.rs` lines 74-82): a register event carries the fields of a parsed
transaction (`src/csv_rows.rs` builds the `Transaction` with
`dispute_state: Undisputed`), the dispute-lifecycle events carry a
transaction id. -/
inductive Op where
  | register (id : ℕ) (client_id : ℕ) (amount : ℚ) (kind : TransactionType)
  | dispute (tid : ℕ)
  | resolve (tid : ℕ)
  | chargeback (tid : ℕ)
deriving DecidableEq, Repr

/-- Apply one event to an account; `none` models a `panic!`. -/
def applyOp (a : Account) : Op → Option Account
  | Op.register i c amt k =>
      some (a.register_transaction
        { id := i, client_id := c, amount := amt
          transaction_type := k, dispute_state := DisputeState.Undisputed })
  | Op.dispute tid => some (a.dispute_transaction tid)
  | Op.resolve tid => a.resolve_disputed_transaction tid
  | Op.chargeback tid => a.chargeback_disputed_transaction tid

/-- Apply a sequence of events, stopping (with `none`) at the first panic. -/
def applyOps (a : Account) : List Op → Option Account
  | [] => some a
  | op :: ops =>
    match applyOp a op with
    | none => none
    | some b => applyOps b ops

/-- The sum of `amount` over the transactions of a history whose
`dispute_state` is `Disputed` (the quantity the spec equates with
`held_balance`). -/
def disputedSum : List (ℕ × Transaction) → ℚ
  | [] => 0
  | (_, t) :: rest =>
    (if t.dispute_state = DisputeState.Disputed then t.amount else 0) + disputedSum rest

/-- An event registers only non-negative amounts (the §6 parsed-transaction
contract: the parsing layer rejects negative amounts). -/
def Op.amountOk : Op → Prop
  | Op.register _ _ amt _ => 0 ≤ amt
  | _ => True

/-- Every stored amount and both balances are non-negative. -/
def NonnegState (a : Account) : Prop :=
  (∀ p ∈ a.transactions, 0 ≤ p.2.amount) ∧
    0 ≤ a.available_balance ∧ 0 ≤ a.held_balance

/-! ### The I/O layer: `src/csv_rows.rs` and the driver of `src/main.rs` -/

/-- `InputRow` from `src/csv_rows.rs`. -/
structure InputRow where
  transaction_type : String
  client : ℕ
  tx : ℕ
  amount : Option ℚ
deriving DecidableEq, Repr

/-- `InputRowParseErr` from `src/csv_rows.rs`. -/
inductive InputRowParseErr where
  | UnknownType
  | BadAmount
deriving DecidableEq, Repr

/-- `BigDecimal::round(4)` as used in `src/csv_rows.rs`: round to four
fractional digits (the claims checked here never depend on the tie-breaking
rule of the dependency). -/
def round4 (q : ℚ) : ℚ := ((round (q * 10000) : ℤ) : ℚ) / 10000

/-- `TryFrom<InputRow> for Transaction` from `src/csv_rows.rs`. -/
def tryIntoTransaction (row : InputRow) : Except InputRowParseErr Transaction :=
  match row.amount with
  | none => Except.error InputRowParseErr.UnknownType
  | some q =>
    if q < 0 then Except.error InputRowParseErr.BadAmount
    else if row.transaction_type = "deposit" then
      Except.ok { id := row.tx, client_id := row.client, amount := round4 q
                  transaction_type := TransactionType.Deposit
                  dispute_state := DisputeState.Undisputed }
    else if row.transaction_type = "withdrawal" then
      Except.ok { id := row.tx, client_id := row.client, amount := round4 q
                  transaction_type := TransactionType.Withdrawal
                  dispute_state := DisputeState.Undisputed }
    else Except.error InputRowParseErr.UnknownType

/-- `TryFrom<InputRow> for DisputeAction` from `src/csv_rows.rs`. -/
def tryIntoDisputeAction (row : InputRow) : Except InputRowParseErr DisputeAction :=
  if row.transaction_type = "dispute" then
    Except.ok { action_type := DisputeActionType.Dispute
                client_id := row.client, transaction_id := row.tx }
  else if row.transaction_type = "resolve" then
    Except.ok { action_type := DisputeActionType.Resolve
                client_id := row.client, transaction_id := row.tx }
  else if row.transaction_type = "chargeback" then
    Except.ok { action_type := DisputeActionType.Chargeback
                client_id := row.client, transaction_id := row.tx }
  else Except.error InputRowParseErr.UnknownType

/-- `OutputRow` from `src/csv_rows.rs`. -/
structure OutputRow where
  client : ℕ
  available : ℚ
  held : ℚ
  total : ℚ
  locked : Bool
deriving DecidableEq, Repr

/-- `From<Account> for OutputRow` from `src/csv_rows.rs`. -/
def OutputRow.fromAccount (account : Account) : OutputRow :=
  { client := account.id
    total := account.available_balance + account.held_balance
    available := account.available_balance
    held := account.held_balance
    locked := account.is_frozen }

/-- `BTreeMap::get` on the driver's map of accounts, modelled as an
association list with keys in ascending order. -/
def getAccount : List (ℕ × Account) → ℕ → Option Account
  | [], _ => none
  | (k, v) :: rest, c => if k = c then some v else getAccount rest c

/-- `BTreeMap::insert`: insert or replace, keeping keys in ascending order. -/
def insertAccount : List (ℕ × Account) → ℕ → Account → List (ℕ × Account)
  | [], c, v => [(c, v)]
  | (k, v0) :: rest, c, v =>
    if c < k then (c, v) :: (k, v0) :: rest
    else if c = k then (c, v) :: rest
    else (k, v0) :: insertAccount rest c v

/-- Lines 66-70 of `src/main.rs`: load the account, creating it if it does
not exist yet. -/
def ensureAccount (accounts : List (ℕ × Account)) (c : ℕ) : List (ℕ × Account) :=
  if (getAccount accounts c).isSome then accounts
  else insertAccount accounts c (Account.new c)

/-- One iteration of the event loop of `src/main.rs` (lines 61-83): ensure the
row's account exists, then try the row as a transaction, then as a dispute
action, ignoring rows that parse as neither; `none` models a `panic!` inside
an account operation. -/
def processRow (accounts : List (ℕ × Account)) (row : InputRow) :
    Option (List (ℕ × Account)) :=
  let accounts1 := ensureAccount accounts row.client
  let acct := (getAccount accounts1 row.client).getD (Account.new row.client)
  match tryIntoTransaction row with
  | Except.ok t => some (insertAccount accounts1 row.client (acct.register_transaction t))
  | Except.error _ =>
    match tryIntoDisputeAction row with
    | Except.ok d =>
      match d.action_type with
      | DisputeActionType.Dispute =>
          some (insertAccount accounts1 row.client (acct.dispute_transaction d.transaction_id))
      | DisputeActionType.Resolve =>
          (acct.resolve_disputed_transaction d.transaction_id).map
            (insertAccount accounts1 row.client)
      | DisputeActionType.Chargeback =>
          (acct.chargeback_disputed_transaction d.transaction_id).map
            (insertAccount accounts1 row.client)
    | Except.error _ => some accounts1

/-- The whole event loop of `src/main.rs`. -/
def processRows : List (ℕ × Account) → List InputRow → Option (List (ℕ × Account))
  | accounts, [] => some accounts
  | accounts, row :: rows =>
    match processRow accounts row with
    | none => none
    | some accounts1 => processRows accounts1 rows

/-- The full run of `src/main.rs`: process every row starting from an empty
map, then project each account (in ascending client order, as
`BTreeMap::into_iter` yields them) to an output row. -/
def runMain (rows : List InputRow) : Option (List OutputRow) :=
  (processRows [] rows).map fun m => m.map fun p => OutputRow.fromAccount p.2

/-- The five type strings the parsing layer of `src/csv_rows.rs` recognizes. -/
def knownTypeStrings : List String :=
  ["deposit", "withdrawal", "dispute", "resolve", "chargeback"]

/-- The keys of the driver's account map are strictly ascending (the
`BTreeMap` iteration-order invariant). -/
def SortedKeys (m : List (ℕ × Account)) : Prop :=
  (m.map Prod.fst).Pairwise (· < ·)

/-- Every account stored in the driver's map carries its own key as id. -/
def IdsOk (m : List (ℕ × Account)) : Prop := ∀ p ∈ m, p.2.id = p.1

/-! ### Concrete inputs used by the closed instances below -/

def txDep1 : Transaction :=
  { id := 1, client_id := 1, amount := 10
    transaction_type := TransactionType.Deposit
    dispute_state := DisputeState.Undisputed }

def txDep1D : Transaction := { txDep1 with dispute_state := DisputeState.Disputed }

def txDep1CB : Transaction := { txDep1 with dispute_state := DisputeState.ChargedBack }

def txDep2 : Transaction :=
  { id := 2, client_id := 1, amount := 15
    transaction_type := TransactionType.Deposit
    dispute_state := DisputeState.Undisputed }

def txDep2D : Transaction := { txDep2 with dispute_state := DisputeState.Disputed }

def txDep3 : Transaction :=
  { id := 3, client_id := 1, amount := 20
    transaction_type := TransactionType.Deposit
    dispute_state := DisputeState.Undisputed }

def txWd8 : Transaction :=
  { id := 2, client_id := 1, amount := 8
    transaction_type := TransactionType.Withdrawal
    dispute_state := DisputeState.Undisputed }

/-- One deposit of 10 registered. -/
def acctDep1 : Account :=
  { id := 1, available_balance := 10, held_balance := 0
    transactions := [(1, txDep1)], is_frozen := false }

/-- Deposit of 10 registered and then disputed. -/
def acctDisputed1 : Account :=
  { id := 1, available_balance := 0, held_balance := 10
    transactions := [(1, txDep1D)], is_frozen := false }

/-- Deposit of 10 and withdrawal of 8 registered. -/
def c2Acct : Account :=
  { id := 1, available_balance := 2, held_balance := 0
    transactions := [(1, txDep1), (2, txWd8)], is_frozen := false }

/-- Deposit of 10 disputed and then charged back. -/
def acctChargedBack1 : Account :=
  { id := 1, available_balance := 0, held_balance := 0
    transactions := [(1, txDep1CB)], is_frozen := true }

/-- Deposits of 10 and 15; the first disputed and charged back. -/
def acctFrozen2 : Account :=
  { id := 1, available_balance := 15, held_balance := 0
    transactions := [(1, txDep1CB), (2, txDep2)], is_frozen := true }

/-- `acctFrozen2` after a successful dispute of the second deposit. -/
def acctFrozen2D : Account :=
  { id := 1, available_balance := 0, held_balance := 15
    transactions := [(1, txDep1CB), (2, txDep2D)], is_frozen := true }

/-- An empty, already frozen account. -/
def frozenAcct : Account :=
  { id := 3, available_balance := 0, held_balance := 0
    transactions := [], is_frozen := true }

/-- An undisputed deposit of 3 on an account whose held balance is negative:
a state at which the dispute/resolve round trip panics rather than restoring
the balances. -/
def c8tx : Transaction :=
  { id := 1, client_id := 1, amount := 3
    transaction_type := TransactionType.Deposit
    dispute_state := DisputeState.Undisputed }

def c8acct : Account :=
  { id := 1, available_balance := 10, held_balance := -1
    transactions := [(1, c8tx)], is_frozen := false }

/-! ### Branch characterizations of the four operations -/

theorem register_frozen {a : Account} (t : Transaction) (hf : a.is_frozen = true) :
    a.register_transaction t = a := by
  simp [Account.register_transaction, hf]

theorem register_dup {a : Account} (t : Transaction)
    (hc : containsTx a.transactions t.id = true) :
    a.register_transaction t = a := by
  simp [Account.register_transaction, hc]

theorem register_deposit {a : Account} {t : Transaction}
    (hf : a.is_frozen = false) (hc : containsTx a.transactions t.id = false)
    (hk : t.transaction_type = TransactionType.Deposit) :
    a.register_transaction t =
      { a with available_balance := a.available_balance + t.amount
               transactions := insertTx a.transactions t.id t } := by
  simp [Account.register_transaction, hf, hc, hk]

theorem register_withdrawal {a : Account} {t : Transaction}
    (hf : a.is_frozen = false) (hc : containsTx a.transactions t.id = false)
    (hk : t.transaction_type = TransactionType.Withdrawal)
    (hw : t.amount ≤ a.available_balance) :
    a.register_transaction t =
      { a with available_balance := a.available_balance - t.amount
               transactions := insertTx a.transactions t.id t } := by
  simp [Account.register_transaction, hf, hc, hk, hw]

theorem register_withdrawal_over {a : Account} {t : Transaction}
    (hk : t.transaction_type = TransactionType.Withdrawal)
    (hw : ¬ t.amount ≤ a.available_balance) :
    a.register_transaction t = a := by
  simp [Account.register_transaction, hk, hw]

theorem dispute_unknown {a : Account} {tid : ℕ}
    (hl : lookupTx a.transactions tid = none) :
    a.dispute_transaction tid = a := by
  simp [Account.dispute_transaction, hl]

theorem dispute_not_undisputed {a : Account} {tid : ℕ} {t : Transaction}
    (hl : lookupTx a.transactions tid = some t)
    (hu : ¬ t.dispute_state = DisputeState.Undisputed) :
    a.dispute_transaction tid = a := by
  simp [Account.dispute_transaction, hl, hu]

theorem dispute_withdrawal {a : Account} {tid : ℕ} {t : Transaction}
    (hl : lookupTx a.transactions tid = some t)
    (hk : t.transaction_type = TransactionType.Withdrawal) :
    a.dispute_transaction tid = a := by
  by_cases hu : t.dispute_state = DisputeState.Undisputed <;>
    simp [Account.dispute_transaction, hl, hu, hk]

theorem dispute_deposit {a : Account} {tid : ℕ} {t : Transaction}
    (hl : lookupTx a.transactions tid = some t)
    (hu : t.dispute_state = DisputeState.Undisputed)
    (hk : t.transaction_type = TransactionType.Deposit)
    (hw : t.amount ≤ a.available_balance) :
    a.dispute_transaction tid =
      { a with available_balance := a.available_balance - t.amount
               held_balance := a.held_balance + t.amount
               transactions :=
                 updateTx a.transactions tid
                   { t with dispute_state := DisputeState.Disputed } } := by
  simp [Account.dispute_transaction, hl, hu, hk, hw]

theorem dispute_deposit_over {a : Account} {tid : ℕ} {t : Transaction}
    (hl : lookupTx a.transactions tid = some t)
    (hk : t.transaction_type = TransactionType.Deposit)
    (hw : ¬ t.amount ≤ a.available_balance) :
    a.dispute_transaction tid = a := by
  by_cases hu : t.dispute_state = DisputeState.Undisputed <;>
    simp [Account.dispute_transaction, hl, hu, hk, hw]

theorem resolve_unknown {a : Account} {tid : ℕ}
    (hl : lookupTx a.transactions tid = none) :
    a.resolve_disputed_transaction tid = some a := by
  simp [Account.resolve_disputed_transaction, hl]

theorem resolve_not_disputed {a : Account} {tid : ℕ} {t : Transaction}
    (hl : lookupTx a.transactions tid = some t)
    (hd : ¬ t.dispute_state = DisputeState.Disputed) :
    a.resolve_disputed_transaction tid = some a := by
  simp [Account.resolve_disputed_transaction, hl, hd]

theorem resolve_withdrawal {a : Account} {tid : ℕ} {t : Transaction}
    (hl : lookupTx a.transactions tid = some t)
    (hk : t.transaction_type = TransactionType.Withdrawal) :
    a.resolve_disputed_transaction tid = some a := by
  by_cases hd : t.dispute_state = DisputeState.Disputed <;>
    simp [Account.resolve_disputed_transaction, hl, hd, hk]

theorem resolve_deposit {a : Account} {tid : ℕ} {t : Transaction}
    (hl : lookupTx a.transactions tid = some t)
    (hd : t.dispute_state = DisputeState.Disputed)
    (hk : t.transaction_type = TransactionType.Deposit)
    (hw : t.amount ≤ a.held_balance) :
    a.resolve_disputed_transaction tid =
      some { a with held_balance := a.held_balance - t.amount
                    available_balance := a.available_balance + t.amount
                    transactions :=
                      updateTx a.transactions tid
                        { t with dispute_state := DisputeState.Undisputed } } := by
  simp [Account.resolve_disputed_transaction, hl, hd, hk, hw]

theorem resolve_panic {a : Account} {tid : ℕ} {t : Transaction}
    (hl : lookupTx a.transactions tid = some t)
    (hd : t.dispute_state = DisputeState.Disputed)
    (hk : t.transaction_type = TransactionType.Deposit)
    (hw : ¬ t.amount ≤ a.held_balance) :
    a.resolve_disputed_transaction tid = none := by
  simp [Account.resolve_disputed_transaction, hl, hd, hk, hw]

theorem chargeback_unknown {a : Account} {tid : ℕ}
    (hl : lookupTx a.transactions tid = none) :
    a.chargeback_disputed_transaction tid = some a := by
  simp [Account.chargeback_disputed_transaction, hl]

theorem chargeback_not_disputed {a : Account} {tid : ℕ} {t : Transaction}
    (hl : lookupTx a.transactions tid = some t)
    (hd : ¬ t.dispute_state = DisputeState.Disputed) :
    a.chargeback_disputed_transaction tid = some a := by
  simp [Account.chargeback_disputed_transaction, hl, hd]

theorem chargeback_withdrawal {a : Account} {tid : ℕ} {t : Transaction}
    (hl : lookupTx a.transactions tid = some t)
    (hk : t.transaction_type = TransactionType.Withdrawal) :
    a.chargeback_disputed_transaction tid = some a := by
  by_cases hd : t.dispute_state = DisputeState.Disputed <;>
    simp [Account.chargeback_disputed_transaction, hl, hd, hk]

theorem chargeback_deposit {a : Account} {tid : ℕ} {t : Transaction}
    (hl : lookupTx a.transactions tid = some t)
    (hd : t.dispute_state = DisputeState.Disputed)
    (hk : t.transaction_type = TransactionType.Deposit)
    (hw : t.amount ≤ a.held_balance) :
    a.chargeback_disputed_transaction tid =
      some { a with held_balance := a.held_balance - t.amount
                    is_frozen := true
                    transactions :=
                      updateTx a.transactions tid
                        { t with dispute_state := DisputeState.ChargedBack } } := by
  simp [Account.chargeback_disputed_transaction, hl, hd, hk, hw]

theorem chargeback_panic {a : Account} {tid : ℕ} {t : Transaction}
    (hl : lookupTx a.transactions tid = some t)
    (hd : t.dispute_state = DisputeState.Disputed)
    (hk : t.transaction_type = TransactionType.Deposit)
    (hw : ¬ t.amount ≤ a.held_balance) :
    a.chargeback_disputed_transaction tid = none := by
  simp [Account.chargeback_disputed_transaction, hl, hd, hk, hw]

/-! ### Lemmas about the history association list -/

theorem lookupTx_mem {ts : List (ℕ × Transaction)} {k : ℕ} {t : Transaction}
    (h : lookupTx ts k = some t) : (k, t) ∈ ts := by
  induction ts with
  | nil => simp [lookupTx] at h
  | cons p rest ih =>
    obtain ⟨k0, t0⟩ := p
    by_cases hk : k0 = k
    · subst hk
      simp [lookupTx] at h
      simp [h]
    · simp [lookupTx, hk] at h
      exact List.mem_cons_of_mem _ (ih h)

theorem insertTx_of_not_contains {ts : List (ℕ × Transaction)} {k : ℕ}
    (t : Transaction) (h : containsTx ts k = false) :
    insertTx ts k t = ts ++ [(k, t)] := by
  induction ts with
  | nil => simp [insertTx]
  | cons p rest ih =>
    obtain ⟨k0, t0⟩ := p
    by_cases hk : k0 = k
    · subst hk
      simp [containsTx, lookupTx] at h
    · simp [containsTx, lookupTx, hk] at h
      have : containsTx rest k = false := by simp [containsTx, h]
      simp [insertTx, hk, ih this]

theorem lookupTx_updateTx_self {ts : List (ℕ × Transaction)} {k : ℕ} {t : Transaction}
    (t' : Transaction) (h : lookupTx ts k = some t) :
    lookupTx (updateTx ts k t') k = some t' := by
  induction ts with
  | nil => simp [lookupTx] at h
  | cons p rest ih =>
    obtain ⟨k0, t0⟩ := p
    by_cases hk : k0 = k
    · subst hk
      simp [updateTx, lookupTx]
    · simp [lookupTx, hk] at h
      simp [updateTx, lookupTx, hk, ih h]

theorem lookupTx_updateTx_ne {ts : List (ℕ × Transaction)} {k k' : ℕ}
    (t' : Transaction) (h : k' ≠ k) :
    lookupTx (updateTx ts k' t') k = lookupTx ts k := by
  induction ts with
  | nil => simp [updateTx, lookupTx]
  | cons p rest ih =>
    obtain ⟨k0, t0⟩ := p
    by_cases hk : k0 = k'
    · subst hk
      simp [updateTx, lookupTx, h, Ne.symm h]
    · simp [updateTx, lookupTx, hk, ih]

theorem lookupTx_insertTx_ne {ts : List (ℕ × Transaction)} {k k' : ℕ}
    (t' : Transaction) (h : k' ≠ k) :
    lookupTx (insertTx ts k' t') k = lookupTx ts k := by
  induction ts with
  | nil => simp [insertTx, lookupTx, h]
  | cons p rest ih =>
    obtain ⟨k0, t0⟩ := p
    by_cases hk : k0 = k'
    · subst hk
      simp [insertTx, lookupTx, h, Ne.symm h]
    · simp [insertTx, lookupTx, hk, ih]

theorem updateTx_lookup_self {ts : List (ℕ × Transaction)} {k : ℕ} {t : Transaction}
    (h : lookupTx ts k = some t) : updateTx ts k t = ts := by
  induction ts with
  | nil => simp [updateTx]
  | cons p rest ih =>
    obtain ⟨k0, t0⟩ := p
    by_cases hk : k0 = k
    · subst hk
      simp [lookupTx] at h
      simp [updateTx, h]
    · simp [lookupTx, hk] at h
      simp [updateTx, hk, ih h]

theorem updateTx_updateTx (ts : List (ℕ × Transaction)) (k : ℕ)
    (t' t'' : Transaction) :
    updateTx (updateTx ts k t') k t'' = updateTx ts k t'' := by
  induction ts with
  | nil => simp [updateTx]
  | cons p rest ih =>
    obtain ⟨k0, t0⟩ := p
    by_cases hk : k0 = k
    · subst hk
      simp [updateTx]
    · simp [updateTx, hk, ih]

theorem mem_updateTx {ts : List (ℕ × Transaction)} {k : ℕ} {t' : Transaction}
    {p : ℕ × Transaction} (h : p ∈ updateTx ts k t') :
    p ∈ ts ∨ p = (k, t') := by
  induction ts with
  | nil => simp [updateTx] at h
  | cons q rest ih =>
    obtain ⟨k0, t0⟩ := q
    by_cases hk : k0 = k
    · subst hk
      simp [updateTx] at h
      rcases h with h | h
      · exact Or.inr h
      · exact Or.inl (List.mem_cons_of_mem _ h)
    · simp [updateTx, hk] at h
      rcases h with h | h
      · exact Or.inl (by simp [h])
      · rcases ih h with h' | h'
        · exact Or.inl (List.mem_cons_of_mem _ h')
        · exact Or.inr h'

/-! ### Lemmas about `disputedSum` -/

theorem disputedSum_append (ts us : List (ℕ × Transaction)) :
    disputedSum (ts ++ us) = disputedSum ts + disputedSum us := by
  induction ts with
  | nil => simp [disputedSum]
  | cons p rest ih =>
    obtain ⟨k0, t0⟩ := p
    simp [disputedSum, ih]
    ring

theorem disputedSum_updateTx {ts : List (ℕ × Transaction)} {k : ℕ} {t : Transaction}
    (t' : Transaction) (h : lookupTx ts k = some t) :
    disputedSum (updateTx ts k t') =
      disputedSum ts
        - (if t.dispute_state = DisputeState.Disputed then t.amount else 0)
        + (if t'.dispute_state = DisputeState.Disputed then t'.amount else 0) := by
  induction ts with
  | nil => simp [lookupTx] at h
  | cons p rest ih =>
    obtain ⟨k0, t0⟩ := p
    by_cases hk : k0 = k
    · subst hk
      simp [lookupTx] at h
      subst h
      simp [updateTx, disputedSum]
      ring
    · simp [lookupTx, hk] at h
      simp [updateTx, disputedSum, hk, ih h]
      ring

theorem disputedSum_nonneg {ts : List (ℕ × Transaction)}
    (hnn : ∀ p ∈ ts, 0 ≤ p.2.amount) : 0 ≤ disputedSum ts := by
  induction ts with
  | nil => simp [disputedSum]
  | cons p rest ih =>
    obtain ⟨k0, t0⟩ := p
    have h1 : 0 ≤ t0.amount := hnn (k0, t0) (by simp)
    have h2 := ih fun p hp => hnn p (List.mem_cons_of_mem _ hp)
    have h3 : 0 ≤ (if t0.dispute_state = DisputeState.Disputed then t0.amount else 0) := by
      split <;> simp [h1]
    simp only [disputedSum]
    linarith

theorem mem_disputed_le_disputedSum {ts : List (ℕ × Transaction)} {k : ℕ}
    {t : Transaction} (hmem : (k, t) ∈ ts)
    (hd : t.dispute_state = DisputeState.Disputed)
    (hnn : ∀ p ∈ ts, 0 ≤ p.2.amount) :
    t.amount ≤ disputedSum ts := by
  induction ts with
  | nil => simp at hmem
  | cons p rest ih =>
    obtain ⟨k0, t0⟩ := p
    have hrest_nn : ∀ p ∈ rest, 0 ≤ p.2.amount := fun p hp =>
      hnn p (List.mem_cons_of_mem _ hp)
    have hsum_nn : 0 ≤ disputedSum rest := disputedSum_nonneg hrest_nn
    rcases List.mem_cons.mp hmem with h | h
    · have ht0 : t0 = t := by
        have := congrArg Prod.snd h
        simpa using this.symm
      subst ht0
      simp only [disputedSum, hd, if_pos]
      linarith
    · have h1 : 0 ≤ (if t0.dispute_state = DisputeState.Disputed then t0.amount else 0) := by
        have : 0 ≤ t0.amount := hnn (k0, t0) (by simp)
        split <;> simp [this]
      have h2 := ih h hrest_nn
      simp only [disputedSum]
      linarith

/-! ### Preservation of the held-balance invariant -/

/-- `held_balance = disputedSum transactions` is preserved by registering any
transaction whose dispute state is `Undisputed` (as every transaction built by
the parsing layer is). -/
theorem held_register {a : Account} {t : Transaction}
    (hinv : a.held_balance = disputedSum a.transactions)
    (hu : t.dispute_state = DisputeState.Undisputed) :
    (a.register_transaction t).held_balance =
      disputedSum (a.register_transaction t).transactions := by
  unfold Account.register_transaction
  by_cases hf : a.is_frozen
  · simp [hf, hinv]
  · by_cases hc : containsTx a.transactions t.id
    · simp [hf, hc, hinv]
    · have hc' : containsTx a.transactions t.id = false := by
        simpa using hc
      have hins := insertTx_of_not_contains t hc'
      cases hk : t.transaction_type with
      | Deposit =>
        simp [hf, hc, hk, hins, disputedSum_append, disputedSum, hu, hinv]
      | Withdrawal =>
        by_cases hw : t.amount ≤ a.available_balance
        · simp [hf, hc, hk, hw, hins, disputedSum_append, disputedSum, hu, hinv]
        · simp [hf, hc, hk, hw, hinv]

/-- The held-balance invariant is preserved by `dispute_transaction`. -/
theorem held_dispute {a : Account} (tid : ℕ)
    (hinv : a.held_balance = disputedSum a.transactions) :
    (a.dispute_transaction tid).held_balance =
      disputedSum (a.dispute_transaction tid).transactions := by
  unfold Account.dispute_transaction
  cases hl : lookupTx a.transactions tid with
  | none => simpa using hinv
  | some t =>
    by_cases hu : t.dispute_state = DisputeState.Undisputed
    · cases hk : t.transaction_type with
      | Deposit =>
        by_cases hw : t.amount ≤ a.available_balance
        · have hupd :=
            disputedSum_updateTx ({ t with dispute_state := DisputeState.Disputed }) hl
          simp only [hu, if_true, hk, hw] at hupd ⊢
          simp [hupd, hinv]
        · simp [hu, hk, hw, hinv]
      | Withdrawal => simp [hu, hk, hinv]
    · simp [hu, hinv]

/-- The held-balance invariant is preserved by a non-panicking
`resolve_disputed_transaction`. -/
theorem held_resolve {a b : Account} {tid : ℕ}
    (hinv : a.held_balance = disputedSum a.transactions)
    (hstep : a.resolve_disputed_transaction tid = some b) :
    b.held_balance = disputedSum b.transactions := by
  unfold Account.resolve_disputed_transaction at hstep
  cases hl : lookupTx a.transactions tid with
  | none =>
    simp [hl] at hstep
    simpa [← hstep] using hinv
  | some t =>
    by_cases hd : t.dispute_state = DisputeState.Disputed
    · cases hk : t.transaction_type with
      | Deposit =>
        by_cases hw : t.amount ≤ a.held_balance
        · simp [hl, hd, hk, hw] at hstep
          subst hstep
          have hupd :=
            disputedSum_updateTx ({ t with dispute_state := DisputeState.Undisputed }) hl
          simp only [hk, hd, if_true] at hupd
          simp [hupd, hinv]
        · simp [hl, hd, hk, hw] at hstep
      | Withdrawal =>
        simp [hl, hd, hk] at hstep
        simpa [← hstep] using hinv
    · simp [hl, hd] at hstep
      simpa [← hstep] using hinv

/-- The held-balance invariant is preserved by a non-panicking
`chargeback_disputed_transaction`. -/
theorem held_chargeback {a b : Account} {tid : ℕ}
    (hinv : a.held_balance = disputedSum a.transactions)
    (hstep : a.chargeback_disputed_transaction tid = some b) :
    b.held_balance = disputedSum b.transactions := by
  unfold Account.chargeback_disputed_transaction at hstep
  cases hl : lookupTx a.transactions tid with
  | none =>
    simp [hl] at hstep
    simpa [← hstep] using hinv
  | some t =>
    by_cases hd : t.dispute_state = DisputeState.Disputed
    · cases hk : t.transaction_type with
      | Deposit =>
        by_cases hw : t.amount ≤ a.held_balance
        · simp [hl, hd, hk, hw] at hstep
          subst hstep
          have hupd :=
            disputedSum_updateTx ({ t with dispute_state := DisputeState.ChargedBack }) hl
          simp only [hk, hd, if_true] at hupd
          simp [hupd, hinv]
        · simp [hl, hd, hk, hw] at hstep
      | Withdrawal =>
        simp [hl, hd, hk] at hstep
        simpa [← hstep] using hinv
    · simp [hl, hd] at hstep
      simpa [← hstep] using hinv

/-- The held-balance invariant is preserved by any single event. -/
theorem held_step {a b : Account} {op : Op}
    (hinv : a.held_balance = disputedSum a.transactions)
    (hstep : applyOp a op = some b) :
    b.held_balance = disputedSum b.transactions := by
  cases op with
  | register i c amt k =>
    simp only [applyOp, Option.some.injEq] at hstep
    subst hstep
    exact held_register hinv rfl
  | dispute tid =>
    simp only [applyOp, Option.some.injEq] at hstep
    subst hstep
    exact held_dispute tid hinv
  | resolve tid => exact held_resolve hinv hstep
  | chargeback tid => exact held_chargeback hinv hstep

/-- The held-balance invariant is preserved along any event sequence. -/
theorem held_ops {ops : List Op} {a b : Account}
    (hinv : a.held_balance = disputedSum a.transactions)
    (h : applyOps a ops = some b) :
    b.held_balance = disputedSum b.transactions := by
  induction ops generalizing a with
  | nil =>
    simp [applyOps] at h
    exact h ▸ hinv
  | cons op ops ih =>
    simp only [applyOps] at h
    cases hstep : applyOp a op with
    | none => simp [hstep] at h
    | some c =>
      simp only [hstep] at h
      exact ih (held_step hinv hstep) h

/-! ### Preservation of non-negativity -/

theorem nonneg_register {a : Account} {t : Transaction}
    (hinv : NonnegState a) (ht : 0 ≤ t.amount) :
    NonnegState (a.register_transaction t) := by
  obtain ⟨hmem, hav, hhe⟩ := hinv
  cases hf : a.is_frozen with
  | true => rw [register_frozen t hf]; exact ⟨hmem, hav, hhe⟩
  | false =>
  cases hc : containsTx a.transactions t.id with
  | true => rw [register_dup t hc]; exact ⟨hmem, hav, hhe⟩
  | false =>
  have hins := insertTx_of_not_contains t hc
  have hmem' : ∀ p ∈ insertTx a.transactions t.id t, 0 ≤ p.2.amount := by
    intro p hp
    rw [hins] at hp
    rcases List.mem_append.mp hp with hp | hp
    · exact hmem p hp
    · simp at hp
      simp [hp, ht]
  cases hk : t.transaction_type with
  | Deposit =>
    rw [register_deposit hf hc hk]
    exact ⟨hmem', by positivity, hhe⟩
  | Withdrawal =>
    by_cases hw : t.amount ≤ a.available_balance
    · rw [register_withdrawal hf hc hk hw]
      exact ⟨hmem', by simp; linarith, hhe⟩
    · rw [register_withdrawal_over hk hw]
      exact ⟨hmem, hav, hhe⟩

theorem nonneg_dispute {a : Account} (tid : ℕ) (hinv : NonnegState a) :
    NonnegState (a.dispute_transaction tid) := by
  obtain ⟨hmem, hav, hhe⟩ := hinv
  cases hl : lookupTx a.transactions tid with
  | none => rw [dispute_unknown hl]; exact ⟨hmem, hav, hhe⟩
  | some t =>
  have htamt : 0 ≤ t.amount := hmem (tid, t) (lookupTx_mem hl)
  by_cases hu : t.dispute_state = DisputeState.Undisputed
  · cases hk : t.transaction_type with
    | Deposit =>
      by_cases hw : t.amount ≤ a.available_balance
      · rw [dispute_deposit hl hu hk hw]
        refine ⟨?_, by simp; linarith, by positivity⟩
        intro p hp
        rcases mem_updateTx hp with hp | hp
        · exact hmem p hp
        · simp [hp, htamt]
      · rw [dispute_deposit_over hl hk hw]
        exact ⟨hmem, hav, hhe⟩
    | Withdrawal =>
      rw [dispute_withdrawal hl hk]
      exact ⟨hmem, hav, hhe⟩
  · rw [dispute_not_undisputed hl hu]
    exact ⟨hmem, hav, hhe⟩

theorem nonneg_resolve {a b : Account} {tid : ℕ}
    (hinv : NonnegState a) (hstep : a.resolve_disputed_transaction tid = some b) :
    NonnegState b := by
  obtain ⟨hmem, hav, hhe⟩ := hinv
  cases hl : lookupTx a.transactions tid with
  | none =>
    rw [resolve_unknown hl] at hstep
    cases hstep
    exact ⟨hmem, hav, hhe⟩
  | some t =>
  have htamt : 0 ≤ t.amount := hmem (tid, t) (lookupTx_mem hl)
  by_cases hd : t.dispute_state = DisputeState.Disputed
  · cases hk : t.transaction_type with
    | Deposit =>
      by_cases hw : t.amount ≤ a.held_balance
      · rw [resolve_deposit hl hd hk hw] at hstep
        cases hstep
        refine ⟨?_, by positivity, by simp; linarith⟩
        intro p hp
        rcases mem_updateTx hp with hp | hp
        · exact hmem p hp
        · simp [hp, htamt]
      · rw [resolve_panic hl hd hk hw] at hstep
        cases hstep
    | Withdrawal =>
      rw [resolve_withdrawal hl hk] at hstep
      cases hstep
      exact ⟨hmem, hav, hhe⟩
  · rw [resolve_not_disputed hl hd] at hstep
    cases hstep
    exact ⟨hmem, hav, hhe⟩

theorem nonneg_chargeback {a b : Account} {tid : ℕ}
    (hinv : NonnegState a) (hstep : a.chargeback_disputed_transaction tid = some b) :
    NonnegState b := by
  obtain ⟨hmem, hav, hhe⟩ := hinv
  cases hl : lookupTx a.transactions tid with
  | none =>
    rw [chargeback_unknown hl] at hstep
    cases hstep
    exact ⟨hmem, hav, hhe⟩
  | some t =>
  have htamt : 0 ≤ t.amount := hmem (tid, t) (lookupTx_mem hl)
  by_cases hd : t.dispute_state = DisputeState.Disputed
  · cases hk : t.transaction_type with
    | Deposit =>
      by_cases hw : t.amount ≤ a.held_balance
      · rw [chargeback_deposit hl hd hk hw] at hstep
        cases hstep
        refine ⟨?_, hav, by simp; linarith⟩
        intro p hp
        rcases mem_updateTx hp with hp | hp
        · exact hmem p hp
        · simp [hp, htamt]
      · rw [chargeback_panic hl hd hk hw] at hstep
        cases hstep
    | Withdrawal =>
      rw [chargeback_withdrawal hl hk] at hstep
      cases hstep
      exact ⟨hmem, hav, hhe⟩
  · rw [chargeback_not_disputed hl hd] at hstep
    cases hstep
    exact ⟨hmem, hav, hhe⟩

theorem nonneg_step {a b : Account} {op : Op}
    (hinv : NonnegState a) (hok : op.amountOk) (hstep : applyOp a op = some b) :
    NonnegState b := by
  cases op with
  | register i c amt k =>
    simp only [applyOp, Option.some.injEq] at hstep
    subst hstep
    exact nonneg_register hinv hok
  | dispute tid =>
    simp only [applyOp, Option.some.injEq] at hstep
    subst hstep
    exact nonneg_dispute tid hinv
  | resolve tid => exact nonneg_resolve hinv hstep
  | chargeback tid => exact nonneg_chargeback hinv hstep

theorem nonneg_ops {ops : List Op} {a b : Account}
    (hinv : NonnegState a) (hok : ∀ op ∈ ops, op.amountOk)
    (h : applyOps a ops = some b) : NonnegState b := by
  induction ops generalizing a with
  | nil =>
    simp [applyOps] at h
    exact h ▸ hinv
  | cons op ops ih =>
    simp only [applyOps] at h
    cases hstep : applyOp a op with
    | none => simp [hstep] at h
    | some c =>
      simp only [hstep] at h
      exact ih (nonneg_step hinv (hok op (by simp)) hstep)
        (fun o ho => hok o (List.mem_cons_of_mem _ ho)) h

theorem nonnegState_new (cid : ℕ) : NonnegState (Account.new cid) := by
  refine ⟨?_, ?_, ?_⟩ <;> simp [Account.new]

theorem held_new (cid : ℕ) :
    (Account.new cid).held_balance = disputedSum (Account.new cid).transactions := by
  simp [Account.new, disputedSum]

/-! ### Exhaustive case descriptions of the four operations -/

theorem register_cases (a : Account) (t : Transaction) :
    a.register_transaction t = a ∨
      ((a.register_transaction t =
          { a with available_balance := a.available_balance + t.amount
                   transactions := insertTx a.transactions t.id t } ∨
        a.register_transaction t =
          { a with available_balance := a.available_balance - t.amount
                   transactions := insertTx a.transactions t.id t }) ∧
        containsTx a.transactions t.id = false) := by
  cases hf : a.is_frozen with
  | true => exact Or.inl (register_frozen t hf)
  | false =>
    cases hc : containsTx a.transactions t.id with
    | true => exact Or.inl (register_dup t hc)
    | false =>
      cases hk : t.transaction_type with
      | Deposit => exact Or.inr ⟨Or.inl (hf ▸ register_deposit hf hc hk), rfl⟩
      | Withdrawal =>
        by_cases hw : t.amount ≤ a.available_balance
        · exact Or.inr ⟨Or.inr (hf ▸ register_withdrawal hf hc hk hw), rfl⟩
        · exact Or.inl (register_withdrawal_over hk hw)

theorem dispute_cases (a : Account) (tid : ℕ) :
    a.dispute_transaction tid = a ∨
      ∃ t, lookupTx a.transactions tid = some t ∧
        t.dispute_state = DisputeState.Undisputed ∧
        t.transaction_type = TransactionType.Deposit ∧
        t.amount ≤ a.available_balance ∧
        a.dispute_transaction tid =
          { a with available_balance := a.available_balance - t.amount
                   held_balance := a.held_balance + t.amount
                   transactions := updateTx a.transactions tid
                     { t with dispute_state := DisputeState.Disputed } } := by
  cases hl : lookupTx a.transactions tid with
  | none => exact Or.inl (dispute_unknown hl)
  | some t =>
    by_cases hu : t.dispute_state = DisputeState.Undisputed
    · cases hk : t.transaction_type with
      | Deposit =>
        by_cases hw : t.amount ≤ a.available_balance
        · exact Or.inr ⟨t, rfl, hu, hk, hw, dispute_deposit hl hu hk hw⟩
        · exact Or.inl (dispute_deposit_over hl hk hw)
      | Withdrawal => exact Or.inl (dispute_withdrawal hl hk)
    · exact Or.inl (dispute_not_undisputed hl hu)

theorem resolve_cases (a : Account) (tid : ℕ) :
    a.resolve_disputed_transaction tid = some a ∨
      (∃ t, lookupTx a.transactions tid = some t ∧
        t.dispute_state = DisputeState.Disputed ∧
        t.transaction_type = TransactionType.Deposit ∧
        t.amount ≤ a.held_balance ∧
        a.resolve_disputed_transaction tid =
          some { a with held_balance := a.held_balance - t.amount
                        available_balance := a.available_balance + t.amount
                        transactions := updateTx a.transactions tid
                          { t with dispute_state := DisputeState.Undisputed } }) ∨
      (∃ t, lookupTx a.transactions tid = some t ∧
        t.dispute_state = DisputeState.Disputed ∧
        t.transaction_type = TransactionType.Deposit ∧
        ¬ t.amount ≤ a.held_balance ∧
        a.resolve_disputed_transaction tid = none) := by
  cases hl : lookupTx a.transactions tid with
  | none => exact Or.inl (resolve_unknown hl)
  | some t =>
    by_cases hd : t.dispute_state = DisputeState.Disputed
    · cases hk : t.transaction_type with
      | Deposit =>
        by_cases hw : t.amount ≤ a.held_balance
        · exact Or.inr (Or.inl ⟨t, rfl, hd, hk, hw, resolve_deposit hl hd hk hw⟩)
        · exact Or.inr (Or.inr ⟨t, rfl, hd, hk, hw, resolve_panic hl hd hk hw⟩)
      | Withdrawal => exact Or.inl (resolve_withdrawal hl hk)
    · exact Or.inl (resolve_not_disputed hl hd)

theorem chargeback_cases (a : Account) (tid : ℕ) :
    a.chargeback_disputed_transaction tid = some a ∨
      (∃ t, lookupTx a.transactions tid = some t ∧
        t.dispute_state = DisputeState.Disputed ∧
        t.transaction_type = TransactionType.Deposit ∧
        t.amount ≤ a.held_balance ∧
        a.chargeback_disputed_transaction tid =
          some { a with held_balance := a.held_balance - t.amount
                        is_frozen := true
                        transactions := updateTx a.transactions tid
                          { t with dispute_state := DisputeState.ChargedBack } }) ∨
      (∃ t, lookupTx a.transactions tid = some t ∧
        t.dispute_state = DisputeState.Disputed ∧
        t.transaction_type = TransactionType.Deposit ∧
        ¬ t.amount ≤ a.held_balance ∧
        a.chargeback_disputed_transaction tid = none) := by
  cases hl : lookupTx a.transactions tid with
  | none => exact Or.inl (chargeback_unknown hl)
  | some t =>
    by_cases hd : t.dispute_state = DisputeState.Disputed
    · cases hk : t.transaction_type with
      | Deposit =>
        by_cases hw : t.amount ≤ a.held_balance
        · exact Or.inr (Or.inl ⟨t, rfl, hd, hk, hw, chargeback_deposit hl hd hk hw⟩)
        · exact Or.inr (Or.inr ⟨t, rfl, hd, hk, hw, chargeback_panic hl hd hk hw⟩)
      | Withdrawal => exact Or.inl (chargeback_withdrawal hl hk)
    · exact Or.inl (chargeback_not_disputed hl hd)

/-! ### The freeze flag is a one-way latch -/

theorem frozen_step {a b : Account} {op : Op} (hf : a.is_frozen = true)
    (hstep : applyOp a op = some b) : b.is_frozen = true := by
  cases op with
  | register i c amt k =>
    simp only [applyOp, Option.some.injEq] at hstep
    subst hstep
    rcases register_cases a _ with h | ⟨h | h, _⟩ <;> rw [h] <;> exact hf
  | dispute tid =>
    simp only [applyOp, Option.some.injEq] at hstep
    subst hstep
    rcases dispute_cases a tid with h | ⟨t, _, _, _, _, h⟩ <;> rw [h] <;> exact hf
  | resolve tid =>
    simp only [applyOp] at hstep
    rcases resolve_cases a tid with h | ⟨t, _, _, _, _, h⟩ | ⟨t, _, _, _, _, h⟩ <;>
      rw [h] at hstep <;> cases hstep <;> exact hf
  | chargeback tid =>
    simp only [applyOp] at hstep
    rcases chargeback_cases a tid with h | ⟨t, _, _, _, _, h⟩ | ⟨t, _, _, _, _, h⟩ <;>
      rw [h] at hstep
    · cases hstep; exact hf
    · cases hstep; rfl
    · cases hstep

theorem frozen_ops {ops : List Op} {a b : Account} (hf : a.is_frozen = true)
    (h : applyOps a ops = some b) : b.is_frozen = true := by
  induction ops generalizing a with
  | nil =>
    simp [applyOps] at h
    exact h ▸ hf
  | cons op ops ih =>
    simp only [applyOps] at h
    cases hstep : applyOp a op with
    | none => simp [hstep] at h
    | some c =>
      simp only [hstep] at h
      exact ih (frozen_step hf hstep) h

/-! ### Account ids are never changed by the operations -/

theorem register_id (a : Account) (t : Transaction) :
    (a.register_transaction t).id = a.id := by
  rcases register_cases a t with h | ⟨h | h, _⟩ <;> rw [h]

theorem dispute_id (a : Account) (tid : ℕ) :
    (a.dispute_transaction tid).id = a.id := by
  rcases dispute_cases a tid with h | ⟨t, _, _, _, _, h⟩ <;> rw [h]

theorem resolve_id {a b : Account} {tid : ℕ}
    (hstep : a.resolve_disputed_transaction tid = some b) : b.id = a.id := by
  rcases resolve_cases a tid with h | ⟨t, _, _, _, _, h⟩ | ⟨t, _, _, _, _, h⟩ <;>
    rw [h] at hstep <;> cases hstep <;> rfl

theorem chargeback_id {a b : Account} {tid : ℕ}
    (hstep : a.chargeback_disputed_transaction tid = some b) : b.id = a.id := by
  rcases chargeback_cases a tid with h | ⟨t, _, _, _, _, h⟩ | ⟨t, _, _, _, _, h⟩ <;>
    rw [h] at hstep <;> cases hstep <;> rfl

/-! ### A charged-back transaction is never touched again -/

theorem chargedback_step {a b : Account} {k : ℕ} {t : Transaction} {op : Op}
    (hl : lookupTx a.transactions k = some t)
    (hcb : t.dispute_state = DisputeState.ChargedBack)
    (hstep : applyOp a op = some b) :
    lookupTx b.transactions k = some t := by
  cases op with
  | register i c amt kind =>
    simp only [applyOp, Option.some.injEq] at hstep
    subst hstep
    rcases register_cases a
        { id := i, client_id := c, amount := amt, transaction_type := kind
          dispute_state := DisputeState.Undisputed } with h | ⟨h | h, hc⟩ <;> rw [h]
    · exact hl
    all_goals {
      show lookupTx (insertTx a.transactions i _) k = some t
      have hne : i ≠ k := by
        intro he
        rw [he] at hc
        simp [containsTx, hl] at hc
      rw [lookupTx_insertTx_ne _ hne]
      exact hl }
  | dispute tid =>
    simp only [applyOp, Option.some.injEq] at hstep
    subst hstep
    rcases dispute_cases a tid with h | ⟨t0, hl0, hu0, _, _, h⟩
    · rw [h]; exact hl
    · rw [h]
      show lookupTx (updateTx a.transactions tid _) k = some t
      by_cases htk : tid = k
      · subst htk
        rw [hl0] at hl
        cases hl
        rw [hcb] at hu0
        cases hu0
      · rw [lookupTx_updateTx_ne _ htk]
        exact hl
  | resolve tid =>
    simp only [applyOp] at hstep
    rcases resolve_cases a tid with h | ⟨t0, hl0, hd0, _, _, h⟩ | ⟨t0, hl0, hd0, _, _, h⟩ <;>
      rw [h] at hstep
    · cases hstep; exact hl
    · cases hstep
      show lookupTx (updateTx a.transactions tid _) k = some t
      by_cases htk : tid = k
      · subst htk
        rw [hl0] at hl
        cases hl
        rw [hcb] at hd0
        cases hd0
      · rw [lookupTx_updateTx_ne _ htk]
        exact hl
    · cases hstep
  | chargeback tid =>
    simp only [applyOp] at hstep
    rcases chargeback_cases a tid with h | ⟨t0, hl0, hd0, _, _, h⟩ | ⟨t0, hl0, hd0, _, _, h⟩ <;>
      rw [h] at hstep
    · cases hstep; exact hl
    · cases hstep
      show lookupTx (updateTx a.transactions tid _) k = some t
      by_cases htk : tid = k
      · subst htk
        rw [hl0] at hl
        cases hl
        rw [hcb] at hd0
        cases hd0
      · rw [lookupTx_updateTx_ne _ htk]
        exact hl
    · cases hstep

theorem chargedback_ops {ops : List Op} {a b : Account} {k : ℕ} {t : Transaction}
    (hl : lookupTx a.transactions k = some t)
    (hcb : t.dispute_state = DisputeState.ChargedBack)
    (h : applyOps a ops = some b) :
    lookupTx b.transactions k = some t := by
  induction ops generalizing a with
  | nil =>
    simp [applyOps] at h
    exact h ▸ hl
  | cons op ops ih =>
    simp only [applyOps] at h
    cases hstep : applyOp a op with
    | none => simp [hstep] at h
    | some c =>
      simp only [hstep] at h
      exact ih (chargedback_step hl hcb hstep) h

/-! ### The dispute-lifecycle operations never read the freeze flag -/

theorem dispute_frozen_indep (a : Account) (tid : ℕ) :
    Account.dispute_transaction { a with is_frozen := true } tid =
      { a.dispute_transaction tid with is_frozen := true } := by
  cases hl : lookupTx a.transactions tid with
  | none =>
    rw [dispute_unknown (a := { a with is_frozen := true }) hl, dispute_unknown hl]
  | some t =>
    by_cases hu : t.dispute_state = DisputeState.Undisputed
    · cases hk : t.transaction_type with
      | Deposit =>
        by_cases hw : t.amount ≤ a.available_balance
        · rw [dispute_deposit (a := { a with is_frozen := true }) hl hu hk hw,
            dispute_deposit hl hu hk hw]
        · rw [dispute_deposit_over (a := { a with is_frozen := true }) hl hk hw,
            dispute_deposit_over hl hk hw]
      | Withdrawal =>
        rw [dispute_withdrawal (a := { a with is_frozen := true }) hl hk,
          dispute_withdrawal hl hk]
    · rw [dispute_not_undisputed (a := { a with is_frozen := true }) hl hu,
        dispute_not_undisputed hl hu]

theorem resolve_frozen_indep (a : Account) (tid : ℕ) :
    Account.resolve_disputed_transaction { a with is_frozen := true } tid =
      (a.resolve_disputed_transaction tid).map fun b => { b with is_frozen := true } := by
  cases hl : lookupTx a.transactions tid with
  | none =>
    rw [resolve_unknown (a := { a with is_frozen := true }) hl, resolve_unknown hl]
    rfl
  | some t =>
    by_cases hd : t.dispute_state = DisputeState.Disputed
    · cases hk : t.transaction_type with
      | Deposit =>
        by_cases hw : t.amount ≤ a.held_balance
        · rw [resolve_deposit (a := { a with is_frozen := true }) hl hd hk hw,
            resolve_deposit hl hd hk hw]
          rfl
        · rw [resolve_panic (a := { a with is_frozen := true }) hl hd hk hw,
            resolve_panic hl hd hk hw]
          rfl
      | Withdrawal =>
        rw [resolve_withdrawal (a := { a with is_frozen := true }) hl hk,
          resolve_withdrawal hl hk]
        rfl
    · rw [resolve_not_disputed (a := { a with is_frozen := true }) hl hd,
        resolve_not_disputed hl hd]
      rfl

theorem chargeback_frozen_indep (a : Account) (tid : ℕ) :
    Account.chargeback_disputed_transaction { a with is_frozen := true } tid =
      (a.chargeback_disputed_transaction tid).map fun b => { b with is_frozen := true } := by
  cases hl : lookupTx a.transactions tid with
  | none =>
    rw [chargeback_unknown (a := { a with is_frozen := true }) hl, chargeback_unknown hl]
    rfl
  | some t =>
    by_cases hd : t.dispute_state = DisputeState.Disputed
    · cases hk : t.transaction_type with
      | Deposit =>
        by_cases hw : t.amount ≤ a.held_balance
        · rw [chargeback_deposit (a := { a with is_frozen := true }) hl hd hk hw,
            chargeback_deposit hl hd hk hw]
          rfl
        · rw [chargeback_panic (a := { a with is_frozen := true }) hl hd hk hw,
            chargeback_panic hl hd hk hw]
          rfl
      | Withdrawal =>
        rw [chargeback_withdrawal (a := { a with is_frozen := true }) hl hk,
          chargeback_withdrawal hl hk]
        rfl
    · rw [chargeback_not_disputed (a := { a with is_frozen := true }) hl hd,
        chargeback_not_disputed hl hd]
      rfl

/-! ### Claim theorems -/

/-- C1: for every sequence of register/dispute/resolve/chargeback events
applied to an account created by `Account::new`, after every operation the
account's `held_balance` equals the sum of the amounts of the transactions
in its history whose dispute state is `Disputed`. -/
theorem C1_held_equals_disputed_sum {cid : ℕ} {ops : List Op} {a : Account}
    (h : applyOps (Account.new cid) ops = some a) :
    a.held_balance = disputedSum a.transactions :=
  held_ops (held_new cid) h

theorem C1_held_equals_disputed_sum_witness :
    applyOps (Account.new 1)
        [Op.register 1 1 10 TransactionType.Deposit, Op.dispute 1] =
      some acctDisputed1 ∧
    acctDisputed1.held_balance = disputedSum acctDisputed1.transactions := by
  have h : applyOps (Account.new 1)
      [Op.register 1 1 10 TransactionType.Deposit, Op.dispute 1] =
      some acctDisputed1 := by
    norm_num [applyOps, applyOp, Account.new, Account.register_transaction,
      Account.dispute_transaction, containsTx, lookupTx, insertTx, updateTx,
      acctDisputed1, txDep1D, txDep1]
  exact ⟨h, C1_held_equals_disputed_sum h⟩

/-- C2: for every sequence of register/dispute/resolve/chargeback events
applied to an account created by `Account::new`, with every registered
transaction carrying a non-negative amount, after every operation both
`available_balance ≥ 0` and `held_balance ≥ 0` hold. -/
theorem C2_balances_nonneg {cid : ℕ} {ops : List Op} {a : Account}
    (hok : ∀ op ∈ ops, op.amountOk)
    (h : applyOps (Account.new cid) ops = some a) :
    0 ≤ a.available_balance ∧ 0 ≤ a.held_balance :=
  (nonneg_ops (nonnegState_new cid) hok h).2

theorem C2_balances_nonneg_witness :
    applyOps (Account.new 1)
        [Op.register 1 1 10 TransactionType.Deposit,
         Op.register 2 1 8 TransactionType.Withdrawal] = some c2Acct ∧
    0 ≤ c2Acct.available_balance ∧ 0 ≤ c2Acct.held_balance := by
  have h : applyOps (Account.new 1)
      [Op.register 1 1 10 TransactionType.Deposit,
       Op.register 2 1 8 TransactionType.Withdrawal] = some c2Acct := by
    norm_num [applyOps, applyOp, Account.new, Account.register_transaction,
      containsTx, lookupTx, insertTx, c2Acct, txDep1, txWd8]
  refine ⟨h, C2_balances_nonneg ?_ h⟩
  intro op hop
  fin_cases hop <;> norm_num [Op.amountOk]

/-- C3: `register_transaction` leaves a frozen account, or an account that
already contains the transaction id, unchanged; otherwise a deposit adds its
amount to the available balance and is recorded, and a withdrawal subtracts
its amount and is recorded when covered by the available balance and leaves
the account entirely unchanged when it is not. -/
theorem C3_register_behaviour (a : Account) (t : Transaction) :
    ((a.is_frozen = true ∨ containsTx a.transactions t.id = true) →
      a.register_transaction t = a) ∧
    (a.is_frozen = false → containsTx a.transactions t.id = false →
      (t.transaction_type = TransactionType.Deposit →
        a.register_transaction t =
          { a with available_balance := a.available_balance + t.amount
                   transactions := insertTx a.transactions t.id t }) ∧
      (t.transaction_type = TransactionType.Withdrawal →
        (t.amount ≤ a.available_balance →
          a.register_transaction t =
            { a with available_balance := a.available_balance - t.amount
                     transactions := insertTx a.transactions t.id t }) ∧
        (a.available_balance < t.amount → a.register_transaction t = a))) := by
  constructor
  · rintro (hf | hc)
    · exact register_frozen t hf
    · exact register_dup t hc
  · intro hf hc
    exact ⟨fun hk => register_deposit hf hc hk,
      fun hk => ⟨fun hw => register_withdrawal hf hc hk hw,
        fun hw => register_withdrawal_over hk (not_le.mpr hw)⟩⟩

theorem C3_register_behaviour_witness :
    (Account.new 7).register_transaction txDep1 =
      { Account.new 7 with
        available_balance := (Account.new 7).available_balance + txDep1.amount
        transactions := insertTx (Account.new 7).transactions txDep1.id txDep1 } ∧
    frozenAcct.register_transaction txDep1 = frozenAcct :=
  ⟨((C3_register_behaviour (Account.new 7) txDep1).2 rfl rfl).1 rfl,
   (C3_register_behaviour frozenAcct txDep1).1 (Or.inl rfl)⟩

/-- C4: `dispute_transaction` is a no-op when the id is unknown, the stored
transaction is not `Undisputed`, or it is a withdrawal; for an undisputed
deposit covered by the available balance it moves the amount from available
to held and marks the transaction `Disputed`, while a deposit exceeding the
available balance leaves the account unchanged (so the transaction stays
`Undisputed`). -/
theorem C4_dispute_behaviour (a : Account) (x : ℕ) :
    (lookupTx a.transactions x = none → a.dispute_transaction x = a) ∧
    ∀ t, lookupTx a.transactions x = some t →
      (t.dispute_state ≠ DisputeState.Undisputed → a.dispute_transaction x = a) ∧
      (t.transaction_type = TransactionType.Withdrawal →
        a.dispute_transaction x = a) ∧
      (t.dispute_state = DisputeState.Undisputed →
        t.transaction_type = TransactionType.Deposit →
        (t.amount ≤ a.available_balance →
          a.dispute_transaction x =
            { a with available_balance := a.available_balance - t.amount
                     held_balance := a.held_balance + t.amount
                     transactions := updateTx a.transactions x
                       { t with dispute_state := DisputeState.Disputed } }) ∧
        (a.available_balance < t.amount →
          a.dispute_transaction x = a ∧
          lookupTx (a.dispute_transaction x).transactions x = some t)) := by
  refine ⟨fun hl => dispute_unknown hl, fun t hl => ?_⟩
  refine ⟨fun hu => dispute_not_undisputed hl hu,
    fun hk => dispute_withdrawal hl hk,
    fun hu hk => ⟨fun hw => dispute_deposit hl hu hk hw, fun hw => ?_⟩⟩
  have h := dispute_deposit_over hl hk (not_le.mpr hw)
  exact ⟨h, by rw [h]; exact hl⟩

theorem C4_dispute_behaviour_witness :
    acctDep1.dispute_transaction 1 =
      { acctDep1 with
        available_balance := acctDep1.available_balance - txDep1.amount
        held_balance := acctDep1.held_balance + txDep1.amount
        transactions := updateTx acctDep1.transactions 1
          { txDep1 with dispute_state := DisputeState.Disputed } } ∧
    acctDep1.dispute_transaction 5 = acctDep1 := by
  refine ⟨(((C4_dispute_behaviour acctDep1 1).2 txDep1 rfl).2.2 rfl rfl).1 ?_,
    (C4_dispute_behaviour acctDep1 5).1 rfl⟩
  norm_num [txDep1, acctDep1]

/-- C5: `chargeback_disputed_transaction` is a no-op unless the id resolves
to a transaction in state `Disputed`; on a disputed deposit covered by the
held balance it removes the amount from held (leaving available untouched),
freezes the account, and marks the transaction `ChargedBack`, after which no
later operation sequence ever changes that transaction again. -/
theorem C5_chargeback_behaviour (a : Account) (x : ℕ) :
    (lookupTx a.transactions x = none →
      a.chargeback_disputed_transaction x = some a) ∧
    ∀ t, lookupTx a.transactions x = some t →
      (t.dispute_state ≠ DisputeState.Disputed →
        a.chargeback_disputed_transaction x = some a) ∧
      (t.dispute_state = DisputeState.Disputed →
        t.transaction_type = TransactionType.Deposit →
        t.amount ≤ a.held_balance →
        a.chargeback_disputed_transaction x =
          some { a with held_balance := a.held_balance - t.amount
                        is_frozen := true
                        transactions := updateTx a.transactions x
                          { t with dispute_state := DisputeState.ChargedBack } } ∧
        ∀ ops b,
          applyOps
            { a with held_balance := a.held_balance - t.amount
                     is_frozen := true
                     transactions := updateTx a.transactions x
                       { t with dispute_state := DisputeState.ChargedBack } }
            ops = some b →
          lookupTx b.transactions x =
            some { t with dispute_state := DisputeState.ChargedBack }) := by
  refine ⟨fun hl => chargeback_unknown hl, fun t hl => ?_⟩
  refine ⟨fun hd => chargeback_not_disputed hl hd, fun hd hk hw => ?_⟩
  refine ⟨chargeback_deposit hl hd hk hw, fun ops b hb => ?_⟩
  have hl' : lookupTx
      (updateTx a.transactions x { t with dispute_state := DisputeState.ChargedBack }) x =
      some { t with dispute_state := DisputeState.ChargedBack } :=
    lookupTx_updateTx_self _ hl
  exact chargedback_ops hl' rfl hb

theorem C5_chargeback_behaviour_witness :
    acctDisputed1.chargeback_disputed_transaction 1 = some acctChargedBack1 ∧
    lookupTx acctChargedBack1.transactions 1 = some txDep1CB := by
  have h := ((C5_chargeback_behaviour acctDisputed1 1).2 txDep1D rfl).2 rfl rfl
    (by norm_num [txDep1D, txDep1, acctDisputed1])
  constructor
  · refine h.1.trans ?_
    norm_num [acctDisputed1, acctChargedBack1, txDep1D, txDep1CB, txDep1, updateTx]
  · have h2 := h.2 [] acctChargedBack1 ?_
    · exact h2.trans (by norm_num [txDep1D, txDep1CB, txDep1])
    · show some _ = some acctChargedBack1
      congr 1
      norm_num [acctDisputed1, acctChargedBack1, txDep1D, txDep1CB, txDep1, updateTx]

/-- C6: once an account is frozen it never unfreezes under any later event
sequence; the freeze flag blocks only the registration of new transactions,
while dispute, resolve, and chargeback behave on a frozen account exactly as
they would with the flag cleared (modulo the flag staying set). -/
theorem C6_freeze_semantics (a : Account) (t : Transaction) (tid : ℕ) (ops : List Op) :
    (a.is_frozen = true → ∀ b, applyOps a ops = some b → b.is_frozen = true) ∧
    (a.is_frozen = true → a.register_transaction t = a) ∧
    (Account.dispute_transaction { a with is_frozen := true } tid =
      { a.dispute_transaction tid with is_frozen := true }) ∧
    (Account.resolve_disputed_transaction { a with is_frozen := true } tid =
      (a.resolve_disputed_transaction tid).map fun b => { b with is_frozen := true }) ∧
    (Account.chargeback_disputed_transaction { a with is_frozen := true } tid =
      (a.chargeback_disputed_transaction tid).map fun b => { b with is_frozen := true }) :=
  ⟨fun hf _b hb => frozen_ops hf hb,
   fun hf => register_frozen t hf,
   dispute_frozen_indep a tid,
   resolve_frozen_indep a tid,
   chargeback_frozen_indep a tid⟩

theorem C6_freeze_semantics_witness :
    applyOps acctFrozen2 [Op.dispute 2] = some acctFrozen2D ∧
    acctFrozen2D.is_frozen = true ∧
    acctFrozen2.register_transaction txDep3 = acctFrozen2 := by
  have h : applyOps acctFrozen2 [Op.dispute 2] = some acctFrozen2D := by
    norm_num [applyOps, applyOp, Account.dispute_transaction, lookupTx, updateTx,
      acctFrozen2, acctFrozen2D, txDep1CB, txDep2, txDep2D, txDep1]
  exact ⟨h,
    (C6_freeze_semantics acctFrozen2 txDep3 2 [Op.dispute 2]).1 rfl acctFrozen2D h,
    (C6_freeze_semantics acctFrozen2 txDep3 2 [Op.dispute 2]).2.1 rfl⟩

/-- C7: in every state reachable from `Account::new` by events whose
registered amounts are non-negative (as the parsing layer guarantees), a
transaction found in state `Disputed` has its amount bounded by the held
balance, so neither `resolve_disputed_transaction` nor
`chargeback_disputed_transaction` ever reaches its fatal `panic!` branch. -/
theorem C7_fatal_branch_unreachable {cid : ℕ} {ops : List Op} {a : Account} (tid : ℕ)
    (hok : ∀ op ∈ ops, op.amountOk)
    (h : applyOps (Account.new cid) ops = some a) :
    (∀ t, lookupTx a.transactions tid = some t →
      t.dispute_state = DisputeState.Disputed → t.amount ≤ a.held_balance) ∧
    a.resolve_disputed_transaction tid ≠ none ∧
    a.chargeback_disputed_transaction tid ≠ none := by
  have hheld := held_ops (held_new cid) h
  have hnn := nonneg_ops (nonnegState_new cid) hok h
  have hmain : ∀ t, lookupTx a.transactions tid = some t →
      t.dispute_state = DisputeState.Disputed → t.amount ≤ a.held_balance := by
    intro t hl hd
    rw [hheld]
    exact mem_disputed_le_disputedSum (lookupTx_mem hl) hd hnn.1
  refine ⟨hmain, ?_, ?_⟩
  · rcases resolve_cases a tid with hc | ⟨t, _, _, _, _, hc⟩ | ⟨t, hl, hd, _, hw, _⟩
    · simp [hc]
    · simp [hc]
    · exact absurd (hmain t hl hd) hw
  · rcases chargeback_cases a tid with hc | ⟨t, _, _, _, _, hc⟩ | ⟨t, hl, hd, _, hw, _⟩
    · simp [hc]
    · simp [hc]
    · exact absurd (hmain t hl hd) hw

theorem C7_fatal_branch_unreachable_witness :
    applyOps (Account.new 1)
        [Op.register 1 1 10 TransactionType.Deposit, Op.dispute 1] =
      some acctDisputed1 ∧
    acctDisputed1.resolve_disputed_transaction 1 ≠ none ∧
    acctDisputed1.chargeback_disputed_transaction 1 ≠ none := by
  have h : applyOps (Account.new 1)
      [Op.register 1 1 10 TransactionType.Deposit, Op.dispute 1] =
      some acctDisputed1 := by
    norm_num [applyOps, applyOp, Account.new, Account.register_transaction,
      Account.dispute_transaction, containsTx, lookupTx, insertTx, updateTx,
      acctDisputed1, txDep1D, txDep1]
  have hok : ∀ op ∈ [Op.register 1 1 10 TransactionType.Deposit, Op.dispute 1],
      op.amountOk := by
    intro op hop
    fin_cases hop <;> norm_num [Op.amountOk]
  exact ⟨h, (C7_fatal_branch_unreachable 1 hok h).2⟩

/-- C8 as stated is false: on an account state whose held balance is negative
the resolve step of the round trip takes the fatal branch instead of
restoring the balances. `c8acct` contains an undisputed deposit of 3 covered
by the available balance, yet dispute followed by resolve panics (`none`)
rather than returning the original balances. -/
theorem C8_counterexample :
    lookupTx c8acct.transactions 1 = some c8tx ∧
    c8tx.transaction_type = TransactionType.Deposit ∧
    c8tx.dispute_state = DisputeState.Undisputed ∧
    c8tx.amount ≤ c8acct.available_balance ∧
    (c8acct.dispute_transaction 1).resolve_disputed_transaction 1 = none := by
  refine ⟨rfl, rfl, rfl, by norm_num [c8tx, c8acct], ?_⟩
  norm_num [c8acct, c8tx, Account.dispute_transaction,
    Account.resolve_disputed_transaction, lookupTx, updateTx]

/-- C8 (amended): for every account state with a non-negative held balance
containing a deposit `x` in state `Undisputed` whose amount is covered by the
available balance, disputing `x` and then resolving `x` restores the account
exactly — in particular the original available and held balances — and `x`
is `Undisputed` again. -/
theorem C8_dispute_resolve_roundtrip {a : Account} {x : ℕ} {t : Transaction}
    (hl : lookupTx a.transactions x = some t)
    (hk : t.transaction_type = TransactionType.Deposit)
    (hu : t.dispute_state = DisputeState.Undisputed)
    (hw : t.amount ≤ a.available_balance)
    (hheld : 0 ≤ a.held_balance) :
    (a.dispute_transaction x).resolve_disputed_transaction x = some a := by
  rw [dispute_deposit hl hu hk hw]
  have hl' : lookupTx
      (updateTx a.transactions x { t with dispute_state := DisputeState.Disputed }) x =
      some { t with dispute_state := DisputeState.Disputed } :=
    lookupTx_updateTx_self _ hl
  rw [resolve_deposit (t := { t with dispute_state := DisputeState.Disputed })
    hl' rfl hk (by simp; linarith)]
  congr 1
  obtain ⟨aid, aav, ahe, ats, afr⟩ := a
  obtain ⟨ti, tc, tam, tty, tst⟩ := t
  simp only at hl hu ⊢
  subst hu
  simp [updateTx_updateTx, updateTx_lookup_self hl]

theorem C8_dispute_resolve_roundtrip_witness :
    (acctDep1.dispute_transaction 1).resolve_disputed_transaction 1 = some acctDep1 :=
  C8_dispute_resolve_roundtrip rfl rfl rfl
    (by norm_num [txDep1, acctDep1]) (by norm_num [acctDep1])

/-! ### Lemmas about the driver's account map -/

theorem getAccount_insert_self (m : List (ℕ × Account)) (c : ℕ) (v : Account) :
    getAccount (insertAccount m c v) c = some v := by
  induction m with
  | nil => simp [insertAccount, getAccount]
  | cons p rest ih =>
    obtain ⟨k, v0⟩ := p
    by_cases h1 : c < k
    · simp [insertAccount, h1, getAccount]
    · by_cases h2 : c = k
      · subst h2
        simp [insertAccount, h1, getAccount]
      · have hne : ¬ k = c := fun he => h2 he.symm
        simp [insertAccount, h1, h2, getAccount, hne, ih]

theorem getAccount_insert_ne {c c' : ℕ} (m : List (ℕ × Account)) (v : Account)
    (h : c' ≠ c) :
    getAccount (insertAccount m c' v) c = getAccount m c := by
  induction m with
  | nil => simp [insertAccount, getAccount, h]
  | cons p rest ih =>
    obtain ⟨k, v0⟩ := p
    by_cases h1 : c' < k
    · simp [insertAccount, h1, getAccount, h]
    · by_cases h2 : c' = k
      · subst h2
        simp [insertAccount, h1, getAccount, h]
      · simp [insertAccount, h1, h2, getAccount, ih]

theorem keys_insertAccount (m : List (ℕ × Account)) (c : ℕ) (v : Account) (x : ℕ) :
    x ∈ (insertAccount m c v).map Prod.fst ↔ x ∈ m.map Prod.fst ∨ x = c := by
  induction m with
  | nil => simp [insertAccount]
  | cons p rest ih =>
    obtain ⟨k, v0⟩ := p
    by_cases h1 : c < k
    · simp [insertAccount, h1]
      tauto
    · by_cases h2 : c = k
      · subst h2
        simp [insertAccount, h1]
        tauto
      · simp [insertAccount, h1, h2, ih]
        tauto

theorem sorted_insertAccount {m : List (ℕ × Account)} (c : ℕ) (v : Account)
    (hs : SortedKeys m) : SortedKeys (insertAccount m c v) := by
  induction m with
  | nil => simp [insertAccount, SortedKeys]
  | cons p rest ih =>
    obtain ⟨k, v0⟩ := p
    simp only [SortedKeys, List.map_cons, List.pairwise_cons] at hs
    obtain ⟨hk, hrest⟩ := hs
    by_cases h1 : c < k
    · unfold insertAccount
      rw [if_pos h1]
      simp only [SortedKeys, List.map_cons, List.pairwise_cons]
      refine ⟨?_, hk, hrest⟩
      intro x hx
      simp only [List.mem_cons] at hx
      rcases hx with rfl | hx
      · exact h1
      · exact h1.trans (hk x hx)
    · by_cases h2 : c = k
      · subst h2
        unfold insertAccount
        rw [if_neg h1, if_pos rfl]
        simp only [SortedKeys, List.map_cons, List.pairwise_cons]
        exact ⟨hk, hrest⟩
      · have h3 : k < c := by omega
        unfold insertAccount
        rw [if_neg h1, if_neg h2]
        simp only [SortedKeys, List.map_cons, List.pairwise_cons]
        refine ⟨?_, ih hrest⟩
        intro x hx
        rcases (keys_insertAccount rest c v x).mp hx with hx | rfl
        · exact hk x hx
        · exact h3

theorem mem_insertAccount {m : List (ℕ × Account)} {c : ℕ} {v : Account}
    {p : ℕ × Account} (hp : p ∈ insertAccount m c v) : p ∈ m ∨ p = (c, v) := by
  induction m with
  | nil =>
    simp [insertAccount] at hp
    simp [hp]
  | cons q rest ih =>
    obtain ⟨k, v0⟩ := q
    by_cases h1 : c < k
    · simp [insertAccount, h1] at hp
      rcases hp with hp | hp | hp
      · right; simp [hp]
      · left; simp [hp]
      · left; exact List.mem_cons_of_mem _ hp
    · by_cases h2 : c = k
      · subst h2
        simp [insertAccount, h1] at hp
        rcases hp with hp | hp
        · right; simp [hp]
        · left; exact List.mem_cons_of_mem _ hp
      · simp [insertAccount, h1, h2] at hp
        rcases hp with hp | hp
        · left; simp [hp]
        · rcases ih hp with hp' | hp'
          · left; exact List.mem_cons_of_mem _ hp'
          · right; exact hp'

theorem getAccount_mem {m : List (ℕ × Account)} {c : ℕ} {v : Account}
    (h : getAccount m c = some v) : (c, v) ∈ m := by
  induction m with
  | nil => simp [getAccount] at h
  | cons p rest ih =>
    obtain ⟨k, v0⟩ := p
    by_cases hk : k = c
    · subst hk
      simp [getAccount] at h
      simp [h]
    · simp [getAccount, hk] at h
      exact List.mem_cons_of_mem _ (ih h)

theorem getAccount_isSome_iff {m : List (ℕ × Account)} {c : ℕ} :
    (getAccount m c).isSome = true ↔ c ∈ m.map Prod.fst := by
  induction m with
  | nil => simp [getAccount]
  | cons p rest ih =>
    obtain ⟨k, v0⟩ := p
    by_cases hk : k = c
    · subst hk
      simp [getAccount]
    · simp [getAccount, hk, ih, Ne.symm hk]

theorem keys_ensureAccount (m : List (ℕ × Account)) (c : ℕ) (x : ℕ) :
    x ∈ (ensureAccount m c).map Prod.fst ↔ x ∈ m.map Prod.fst ∨ x = c := by
  unfold ensureAccount
  cases hg : (getAccount m c).isSome with
  | true =>
    have hc : c ∈ m.map Prod.fst := getAccount_isSome_iff.mp hg
    simp only [if_pos]
    constructor
    · exact fun h => Or.inl h
    · rintro (h | rfl)
      · exact h
      · exact hc
  | false =>
    simp only [Bool.false_eq_true, if_neg, Bool.not_eq_true]
    exact keys_insertAccount m c (Account.new c) x

theorem sorted_ensureAccount (m : List (ℕ × Account)) (c : ℕ)
    (hs : SortedKeys m) : SortedKeys (ensureAccount m c) := by
  unfold ensureAccount
  split
  · exact hs
  · exact sorted_insertAccount c (Account.new c) hs

theorem idsOk_insertAccount {m : List (ℕ × Account)} {c : ℕ} {v : Account}
    (hm : IdsOk m) (hv : v.id = c) : IdsOk (insertAccount m c v) := by
  intro p hp
  rcases mem_insertAccount hp with hp | hp
  · exact hm p hp
  · simp [hp, hv]

theorem idsOk_ensureAccount {m : List (ℕ × Account)} {c : ℕ}
    (hm : IdsOk m) : IdsOk (ensureAccount m c) := by
  unfold ensureAccount
  split
  · exact hm
  · exact idsOk_insertAccount hm rfl

theorem getAccount_ensureAccount_id {m : List (ℕ × Account)} (c : ℕ)
    (hm : IdsOk m) :
    ((getAccount (ensureAccount m c) c).getD (Account.new c)).id = c := by
  cases hg : getAccount (ensureAccount m c) c with
  | none => simp [Account.new]
  | some v =>
    have := idsOk_ensureAccount (c := c) hm (c, v) (getAccount_mem hg)
    simpa using this

/-! ### Rows whose type string is unknown parse as neither shape -/

theorem tryIntoTransaction_unknown {row : InputRow}
    (h : row.transaction_type ∉ knownTypeStrings) (t : Transaction) :
    tryIntoTransaction row ≠ Except.ok t := by
  unfold tryIntoTransaction
  simp only [knownTypeStrings, List.mem_cons, List.not_mem_nil, or_false, not_or] at h
  obtain ⟨h1, h2, -, -, -⟩ := h
  cases row.amount with
  | none => simp
  | some q =>
    by_cases hq : q < 0
    · simp [hq]
    · simp [hq, h1, h2]

theorem tryIntoDisputeAction_unknown {row : InputRow}
    (h : row.transaction_type ∉ knownTypeStrings) (d : DisputeAction) :
    tryIntoDisputeAction row ≠ Except.ok d := by
  unfold tryIntoDisputeAction
  simp only [knownTypeStrings, List.mem_cons, List.not_mem_nil, or_false, not_or] at h
  obtain ⟨-, -, h3, h4, h5⟩ := h
  simp [h3, h4, h5]

/-! ### How one loop iteration changes the account map -/

theorem processRow_keys {m m' : List (ℕ × Account)} {row : InputRow}
    (h : processRow m row = some m') (x : ℕ) :
    x ∈ m'.map Prod.fst ↔ x ∈ m.map Prod.fst ∨ x = row.client := by
  have hens := keys_ensureAccount m row.client x
  have hins : ∀ v : Account,
      x ∈ (insertAccount (ensureAccount m row.client) row.client v).map Prod.fst ↔
        x ∈ m.map Prod.fst ∨ x = row.client := by
    intro v
    rw [keys_insertAccount, hens]
    tauto
  simp only [processRow] at h
  cases htx : tryIntoTransaction row with
  | ok t =>
    simp only [htx, Option.some.injEq] at h
    subst h
    exact hins _
  | error e =>
    simp only [htx] at h
    cases hda : tryIntoDisputeAction row with
    | ok d =>
      simp only [hda] at h
      cases hact : d.action_type <;> simp only [hact] at h
      · simp only [Option.some.injEq] at h
        subst h
        exact hins _
      · cases hr : Account.resolve_disputed_transaction
            ((getAccount (ensureAccount m row.client) row.client).getD
              (Account.new row.client)) d.transaction_id with
        | none => simp [hr] at h
        | some a2 =>
          simp only [hr, Option.map_some', Option.some.injEq] at h
          subst h
          exact hins _
      · cases hr : Account.chargeback_disputed_transaction
            ((getAccount (ensureAccount m row.client) row.client).getD
              (Account.new row.client)) d.transaction_id with
        | none => simp [hr] at h
        | some a2 =>
          simp only [hr, Option.map_some', Option.some.injEq] at h
          subst h
          exact hins _
    | error e2 =>
      simp only [hda, Option.some.injEq] at h
      subst h
      exact hens

theorem processRow_sorted {m m' : List (ℕ × Account)} {row : InputRow}
    (h : processRow m row = some m') (hs : SortedKeys m) : SortedKeys m' := by
  have hens := sorted_ensureAccount m row.client hs
  have hins : ∀ v : Account,
      SortedKeys (insertAccount (ensureAccount m row.client) row.client v) :=
    fun v => sorted_insertAccount _ v hens
  simp only [processRow] at h
  cases htx : tryIntoTransaction row with
  | ok t =>
    simp only [htx, Option.some.injEq] at h
    subst h
    exact hins _
  | error e =>
    simp only [htx] at h
    cases hda : tryIntoDisputeAction row with
    | ok d =>
      simp only [hda] at h
      cases hact : d.action_type <;> simp only [hact] at h
      · simp only [Option.some.injEq] at h
        subst h
        exact hins _
      · cases hr : Account.resolve_disputed_transaction
            ((getAccount (ensureAccount m row.client) row.client).getD
              (Account.new row.client)) d.transaction_id with
        | none => simp [hr] at h
        | some a2 =>
          simp only [hr, Option.map_some', Option.some.injEq] at h
          subst h
          exact hins _
      · cases hr : Account.chargeback_disputed_transaction
            ((getAccount (ensureAccount m row.client) row.client).getD
              (Account.new row.client)) d.transaction_id with
        | none => simp [hr] at h
        | some a2 =>
          simp only [hr, Option.map_some', Option.some.injEq] at h
          subst h
          exact hins _
    | error e2 =>
      simp only [hda, Option.some.injEq] at h
      subst h
      exact hens

theorem processRow_ids {m m' : List (ℕ × Account)} {row : InputRow}
    (h : processRow m row = some m') (hi : IdsOk m) : IdsOk m' := by
  have hens := idsOk_ensureAccount (c := row.client) hi
  have hacct := getAccount_ensureAccount_id row.client hi
  have hins : ∀ v : Account, v.id = row.client →
      IdsOk (insertAccount (ensureAccount m row.client) row.client v) :=
    fun v hv => idsOk_insertAccount hens hv
  simp only [processRow] at h
  cases htx : tryIntoTransaction row with
  | ok t =>
    simp only [htx, Option.some.injEq] at h
    subst h
    exact hins _ ((register_id _ _).trans hacct)
  | error e =>
    simp only [htx] at h
    cases hda : tryIntoDisputeAction row with
    | ok d =>
      simp only [hda] at h
      cases hact : d.action_type <;> simp only [hact] at h
      · simp only [Option.some.injEq] at h
        subst h
        exact hins _ ((dispute_id _ _).trans hacct)
      · cases hr : Account.resolve_disputed_transaction
            ((getAccount (ensureAccount m row.client) row.client).getD
              (Account.new row.client)) d.transaction_id with
        | none => simp [hr] at h
        | some a2 =>
          simp only [hr, Option.map_some', Option.some.injEq] at h
          subst h
          exact hins _ ((resolve_id hr).trans hacct)
      · cases hr : Account.chargeback_disputed_transaction
            ((getAccount (ensureAccount m row.client) row.client).getD
              (Account.new row.client)) d.transaction_id with
        | none => simp [hr] at h
        | some a2 =>
          simp only [hr, Option.map_some', Option.some.injEq] at h
          subst h
          exact hins _ ((chargeback_id hr).trans hacct)
    | error e2 =>
      simp only [hda, Option.some.injEq] at h
      subst h
      exact hens

theorem processRow_getAccount_ne {m m' : List (ℕ × Account)} {row : InputRow}
    (h : processRow m row = some m') {c : ℕ} (hne : row.client ≠ c) :
    getAccount m' c = getAccount m c := by
  have hens : getAccount (ensureAccount m row.client) c = getAccount m c := by
    unfold ensureAccount
    split
    · rfl
    · exact getAccount_insert_ne m _ hne
  have hins : ∀ v : Account,
      getAccount (insertAccount (ensureAccount m row.client) row.client v) c =
        getAccount m c :=
    fun v => (getAccount_insert_ne _ v hne).trans hens
  simp only [processRow] at h
  cases htx : tryIntoTransaction row with
  | ok t =>
    simp only [htx, Option.some.injEq] at h
    subst h
    exact hins _
  | error e =>
    simp only [htx] at h
    cases hda : tryIntoDisputeAction row with
    | ok d =>
      simp only [hda] at h
      cases hact : d.action_type <;> simp only [hact] at h
      · simp only [Option.some.injEq] at h
        subst h
        exact hins _
      · cases hr : Account.resolve_disputed_transaction
            ((getAccount (ensureAccount m row.client) row.client).getD
              (Account.new row.client)) d.transaction_id with
        | none => simp [hr] at h
        | some a2 =>
          simp only [hr, Option.map_some', Option.some.injEq] at h
          subst h
          exact hins _
      · cases hr : Account.chargeback_disputed_transaction
            ((getAccount (ensureAccount m row.client) row.client).getD
              (Account.new row.client)) d.transaction_id with
        | none => simp [hr] at h
        | some a2 =>
          simp only [hr, Option.map_some', Option.some.injEq] at h
          subst h
          exact hins _
    | error e2 =>
      simp only [hda, Option.some.injEq] at h
      subst h
      exact hens

theorem processRow_unmatched {m : List (ℕ × Account)} {row : InputRow}
    (h : row.transaction_type ∉ knownTypeStrings) :
    processRow m row = some (ensureAccount m row.client) := by
  simp only [processRow]
  cases htx : tryIntoTransaction row with
  | ok t => exact absurd htx (tryIntoTransaction_unknown h t)
  | error e =>
    simp only [htx]
    cases hda : tryIntoDisputeAction row with
    | ok d => exact absurd hda (tryIntoDisputeAction_unknown h d)
    | error e2 => simp only [hda]

/-! ### Whole-run invariants of the account map -/

theorem processRows_keys {rows : List InputRow} {m m' : List (ℕ × Account)}
    (h : processRows m rows = some m') (x : ℕ) :
    x ∈ m'.map Prod.fst ↔ x ∈ m.map Prod.fst ∨ ∃ r ∈ rows, r.client = x := by
  induction rows generalizing m with
  | nil =>
    simp only [processRows, Option.some.injEq] at h
    subst h
    simp
  | cons row rows ih =>
    simp only [processRows] at h
    cases hp : processRow m row with
    | none => simp [hp] at h
    | some m1 =>
      simp only [hp] at h
      rw [ih h, processRow_keys hp x]
      simp only [List.mem_cons, exists_eq_or_imp]
      constructor
      · rintro ((hx | rfl) | hx)
        · exact Or.inl hx
        · exact Or.inr (Or.inl rfl)
        · exact Or.inr (Or.inr hx)
      · rintro (hx | rfl | hx)
        · exact Or.inl (Or.inl hx)
        · exact Or.inl (Or.inr rfl)
        · exact Or.inr hx

theorem processRows_sorted {rows : List InputRow} {m m' : List (ℕ × Account)}
    (h : processRows m rows = some m') (hs : SortedKeys m) : SortedKeys m' := by
  induction rows generalizing m with
  | nil =>
    simp only [processRows, Option.some.injEq] at h
    subst h
    exact hs
  | cons row rows ih =>
    simp only [processRows] at h
    cases hp : processRow m row with
    | none => simp [hp] at h
    | some m1 =>
      simp only [hp] at h
      exact ih h (processRow_sorted hp hs)

theorem processRows_ids {rows : List InputRow} {m m' : List (ℕ × Account)}
    (h : processRows m rows = some m') (hi : IdsOk m) : IdsOk m' := by
  induction rows generalizing m with
  | nil =>
    simp only [processRows, Option.some.injEq] at h
    subst h
    exact hi
  | cons row rows ih =>
    simp only [processRows] at h
    cases hp : processRow m row with
    | none => simp [hp] at h
    | some m1 =>
      simp only [hp] at h
      exact ih h (processRow_ids hp hi)

theorem processRows_unmatched_client {rows : List InputRow}
    {m m' : List (ℕ × Account)} {c : ℕ}
    (hall : ∀ r ∈ rows, r.client = c → r.transaction_type ∉ knownTypeStrings)
    (h : processRows m rows = some m')
    (hbase : getAccount m c = none ∨ getAccount m c = some (Account.new c)) :
    getAccount m' c = none ∨ getAccount m' c = some (Account.new c) := by
  induction rows generalizing m with
  | nil =>
    simp only [processRows, Option.some.injEq] at h
    subst h
    exact hbase
  | cons row rows ih =>
    simp only [processRows] at h
    cases hp : processRow m row with
    | none => simp [hp] at h
    | some m1 =>
      simp only [hp] at h
      refine ih (fun r hr => hall r (List.mem_cons_of_mem _ hr)) h ?_
      by_cases hrc : row.client = c
      · have hrow := hall row (by simp) hrc
        rw [processRow_unmatched hrow] at hp
        have hm1 : m1 = ensureAccount m row.client := by
          cases hp
          rfl
        subst hm1
        subst hrc
        rcases hbase with hb | hb
        · right
          unfold ensureAccount
          simp [hb, getAccount_insert_self]
        · right
          unfold ensureAccount
          simp [hb]
      · rw [processRow_getAccount_ne hp hrc]
        exact hbase

/-- C9: a completed run emits exactly one snapshot row per client that
appears in the input, in strictly ascending client order regardless of
arrival order, and every row satisfies `total = available + held` (the total
is derived at projection time). -/
theorem C9_projection {rows : List InputRow} {out : List OutputRow}
    (h : runMain rows = some out) :
    out.Pairwise (fun o1 o2 => o1.client < o2.client) ∧
    (∀ c, (∃ o ∈ out, o.client = c) ↔ ∃ r ∈ rows, r.client = c) ∧
    (∀ o ∈ out, o.total = o.available + o.held) := by
  simp only [runMain] at h
  cases hm : processRows [] rows with
  | none =>
    rw [hm] at h
    cases h
  | some m =>
    rw [hm] at h
    simp only [Option.map_some', Option.some.injEq] at h
    subst h
    have hs : SortedKeys m := processRows_sorted hm (by simp [SortedKeys])
    have hi : IdsOk m := processRows_ids hm (by intro p hp; simp at hp)
    have hkeys := processRows_keys hm
    refine ⟨?_, ?_, ?_⟩
    · rw [List.pairwise_map]
      have hpair : m.Pairwise fun p q => p.1 < q.1 := by
        have hs' := hs
        unfold SortedKeys at hs'
        rwa [List.pairwise_map] at hs'
      refine List.Pairwise.imp_of_mem ?_ hpair
      intro p q hp hq hlt
      show (OutputRow.fromAccount p.2).client < (OutputRow.fromAccount q.2).client
      simpa [OutputRow.fromAccount, hi p hp, hi q hq] using hlt
    · intro c
      have hk : c ∈ m.map Prod.fst ↔ ∃ r ∈ rows, r.client = c := by
        simpa using hkeys c
      rw [← hk]
      constructor
      · rintro ⟨o, ho, rfl⟩
        obtain ⟨p, hp, rfl⟩ := List.mem_map.mp ho
        have hpc := hi p hp
        simp only [OutputRow.fromAccount, hpc]
        exact List.mem_map.mpr ⟨p, hp, rfl⟩
      · intro hc
        obtain ⟨p, hp, hpc⟩ := List.mem_map.mp hc
        exact ⟨OutputRow.fromAccount p.2, List.mem_map.mpr ⟨p, hp, rfl⟩,
          by simp [OutputRow.fromAccount, hi p hp, hpc]⟩
    · intro o ho
      obtain ⟨p, hp, rfl⟩ := List.mem_map.mp ho
      simp [OutputRow.fromAccount]

theorem C9_projection_witness :
    runMain
        [{ transaction_type := "dispute", client := 2, tx := 1, amount := none },
         { transaction_type := "foo", client := 1, tx := 3, amount := none }] =
      some [OutputRow.fromAccount (Account.new 1),
            OutputRow.fromAccount (Account.new 2)] ∧
    List.Pairwise (fun o1 o2 => o1.client < o2.client)
      [OutputRow.fromAccount (Account.new 1), OutputRow.fromAccount (Account.new 2)] ∧
    ∀ o ∈ [OutputRow.fromAccount (Account.new 1),
           OutputRow.fromAccount (Account.new 2)],
      o.total = o.available + o.held := by
  have h : runMain
      [{ transaction_type := "dispute", client := 2, tx := 1, amount := none },
       { transaction_type := "foo", client := 1, tx := 3, amount := none }] =
      some [OutputRow.fromAccount (Account.new 1),
            OutputRow.fromAccount (Account.new 2)] := by
    simp [runMain, processRows, processRow, ensureAccount, getAccount,
      insertAccount, tryIntoTransaction, tryIntoDisputeAction,
      Account.dispute_transaction, lookupTx, Account.new]
  exact ⟨h, (C9_projection h).1, (C9_projection h).2.2⟩

/-- C10: the driver creates the row's account before attempting either parse,
so any row — even one whose type string matches neither shape and therefore
triggers no ledger operation — makes its client appear in the final output;
a client all of whose rows are such unmatched rows is emitted as the freshly
created account: available 0, held 0, total 0, not locked. -/
theorem C10_account_creation {rows : List InputRow} {out : List OutputRow} (c : ℕ)
    (h : runMain rows = some out) :
    (∀ r ∈ rows, ∃ o ∈ out, o.client = r.client) ∧
    ((∃ r ∈ rows, r.client = c) →
      (∀ r ∈ rows, r.client = c → r.transaction_type ∉ knownTypeStrings) →
      OutputRow.fromAccount (Account.new c) ∈ out ∧
      OutputRow.fromAccount (Account.new c) =
        { client := c, available := 0, held := 0, total := 0, locked := false }) := by
  simp only [runMain] at h
  cases hm : processRows [] rows with
  | none =>
    rw [hm] at h
    cases h
  | some m =>
    rw [hm] at h
    simp only [Option.map_some', Option.some.injEq] at h
    subst h
    have hi : IdsOk m := processRows_ids hm (by intro p hp; simp at hp)
    have hkeys := processRows_keys hm
    constructor
    · intro r hr
      have hc : r.client ∈ m.map Prod.fst := by
        rw [hkeys r.client]
        exact Or.inr ⟨r, hr, rfl⟩
      obtain ⟨p, hp, hpc⟩ := List.mem_map.mp hc
      exact ⟨OutputRow.fromAccount p.2, List.mem_map.mpr ⟨p, hp, rfl⟩,
        by simp [OutputRow.fromAccount, hi p hp, hpc]⟩
    · rintro ⟨r, hr, hrc⟩ hall
      have hmem : c ∈ m.map Prod.fst := by
        rw [hkeys c]
        exact Or.inr ⟨r, hr, hrc⟩
      have hsome : getAccount m c = some (Account.new c) := by
        rcases processRows_unmatched_client hall hm (Or.inl rfl) with hnone | hsome
        · exact absurd (getAccount_isSome_iff.mpr hmem) (by simp [hnone])
        · exact hsome
      refine ⟨?_, ?_⟩
      · exact List.mem_map.mpr ⟨(c, Account.new c), getAccount_mem hsome, rfl⟩
      · simp [OutputRow.fromAccount, Account.new]

theorem C10_account_creation_witness :
    runMain [{ transaction_type := "foo", client := 5, tx := 1, amount := none }] =
      some [OutputRow.fromAccount (Account.new 5)] ∧
    OutputRow.fromAccount (Account.new 5) ∈ [OutputRow.fromAccount (Account.new 5)] ∧
    OutputRow.fromAccount (Account.new 5) =
      { client := 5, available := 0, held := 0, total := 0, locked := false } := by
  have h : runMain
      [{ transaction_type := "foo", client := 5, tx := 1, amount := none }] =
      some [OutputRow.fromAccount (Account.new 5)] := by
    simp [runMain, processRows, processRow, ensureAccount, getAccount,
      insertAccount, tryIntoTransaction, tryIntoDisputeAction, Account.new]
  have h2 := (C10_account_creation 5 h).2
    ⟨{ transaction_type := "foo", client := 5, tx := 1, amount := none }, by simp, rfl⟩
    (by
      intro r hr hrc
      simp only [List.mem_singleton] at hr
      subst hr
      decide)
  exact ⟨h, h2⟩

end FinAssess
